import Mathlib

/-!
nicky: a verification development of `main.go`.

A shallow embedding of the scraper's resolution pipeline.

* Go strings are modelled as lists of characters (`Str`).  Go compares strings
  bytewise on their UTF-8 encoding; UTF-8 preserves code point order, so the
  comparison is modelled on code points.
* Go's `int` is the 64-bit `int` of the platforms the tool targets.
* Calls that leave the program (HTTP, the filesystem, the external recorder, the
  HTML and XML decoders) are parameters of the model (`World`, `Decoders`).
  Functions that perform effects return the list of effects they performed,
  in order, next to their Go results.
* A Go result `(v, err)` is modelled as a pair whose second component is
  `none` for `nil` and `some msg` for an error with text `msg`.
-/

set_option autoImplicit false
set_option linter.dupNamespace false

namespace Nicky

/-- Go strings, as lists of characters. -/
abbrev Str := List Char

/-! ## Strings -/

/-- Go's `a > b` on strings (lexicographic; a proper prefix is smaller). -/
def strGt : Str → Str → Bool
  | [], _ => false
  | _ :: _, [] => true
  | a :: as, b :: bs =>
    if b.toNat < a.toNat then true
    else if a.toNat < b.toNat then false
    else strGt as bs

/-- ASCII decimal digit: the class `\d` of Go's `regexp`, and the digits
`strconv.Atoi` accepts. -/
def isDigit (c : Char) : Bool := 48 ≤ c.toNat && c.toNat ≤ 57

/-- Value of one decimal digit. -/
def digitVal (c : Char) : Nat := c.toNat - 48

/-- Numeric value of a string of decimal digits (most significant first). -/
def decVal (s : Str) : Nat := s.foldl (fun acc c => acc * 10 + digitVal c) 0

/-- Go's `unicode.IsSpace`: the characters `strings.TrimSpace` removes. -/
def isSpace (c : Char) : Bool :=
  let n := c.toNat
  (9 ≤ n && n ≤ 13) || n = 32 || n = 0x85 || n = 0xA0 || n = 0x1680 ||
  (0x2000 ≤ n && n ≤ 0x200A) || n = 0x2028 || n = 0x2029 || n = 0x202F ||
  n = 0x205F || n = 0x3000

/-- Remove trailing white space. -/
def trimRight : Str → Str
  | [] => []
  | c :: cs =>
    match trimRight cs with
    | [] => if isSpace c then [] else [c]
    | r :: rs => c :: r :: rs

/-- Go's `strings.TrimSpace`: remove leading and trailing white space. -/
def TrimSpace (s : Str) : Str := trimRight (s.dropWhile isSpace)

/-- Go's `strconv.Atoi` on a 64-bit platform: an optional sign, then one or more
decimal digits, the value within the range of `int`.  On a range error Go returns
the nearest representable value next to the error. -/
def Atoi (s : Str) : Int × Option Str :=
  let neg : Bool := match s with
    | c :: _ => c = '-'
    | [] => false
  let ds : Str := match s with
    | c :: t => if c = '-' ∨ c = '+' then t else s
    | [] => s
  if ds = [] ∨ ds.all isDigit = false then
    (0, some ("strconv.Atoi: parsing \"".toList ++ s ++ "\": invalid syntax".toList))
  else
    let n := decVal ds
    if neg then
      if n ≤ 2 ^ 63 then (-(n : Int), none)
      else (-(2 ^ 63 : Int), some ("strconv.Atoi: parsing \"".toList ++ s ++ "\": value out of range".toList))
    else
      if n < 2 ^ 63 then ((n : Int), none)
      else ((2 ^ 63 - 1 : Int), some ("strconv.Atoi: parsing \"".toList ++ s ++ "\": value out of range".toList))

/-- Go's `fmt` verb `%0<width>d` on an `int` (`%d` is width 0): the decimal digits
of the absolute value, padded with zeros on the left up to the width; a minus sign
counts towards the width. -/
def fmtInt (width : Nat) (n : Int) : Str :=
  let ds := Nat.toDigits 10 n.natAbs
  if n < 0 then '-' :: (List.replicate (width - 1 - ds.length) '0' ++ ds)
  else List.replicate (width - ds.length) '0' ++ ds

/-! ## Regular expressions `<literal>(\d+)` -/

/-- The pattern `Seizoen (\d+)`, given by its literal prefix. -/
def sesRegex : Str := "Seizoen ".toList

/-- The pattern `Aflevering (\d+)`, given by its literal prefix. -/
def epiRegex : Str := "Aflevering ".toList

/-- Match of `<lit>(\d+)` anchored at the start of `s`: the literal, then the
longest non-empty run of digits (`\d+` is greedy).  Returns the captured digits. -/
def matchAt (lit s : Str) : Option Str :=
  if lit.isPrefixOf s then
    let ds := (s.drop lit.length).takeWhile isDigit
    if ds = [] then none else some ds
  else none

/-- Go's `FindStringSubmatch` for the pattern `<lit>(\d+)`: the leftmost match;
the result is `[whole match, capture group 1]`, or `nil` when nothing
matches. -/
def FindStringSubmatch (lit : Str) : Str → List Str
  | [] => []
  | c :: cs =>
    match matchAt lit (c :: cs) with
    | some ds => [lit ++ ds, ds]
    | none => FindStringSubmatch lit cs

/-! ## Paths (`path/filepath` on Unix) -/

/-- Split a path at every `/`; an empty path is one empty element. -/
def splitPath : Str → List Str
  | [] => [[]]
  | c :: cs =>
    if c = '/' then [] :: splitPath cs
    else
      match splitPath cs with
      | [] => [[c]]
      | h :: t => (c :: h) :: t

/-- One step of `filepath.Clean` over the elements kept so far (innermost
first): empty and `.` elements are dropped; `..` removes the last kept element
when there is one that is not itself `..`, is dropped at the root of a rooted
path, and is kept otherwise; any other element is kept. -/
def cleanStep (rooted : Bool) (kept : List Str) (e : Str) : List Str :=
  if e = [] ∨ e = ['.'] then kept
  else if e = ['.', '.'] then
    match kept with
    | [] => if rooted then [] else [e]
    | top :: below => if top = ['.', '.'] then e :: top :: below else below
  else e :: kept

/-- Join path elements with `/`. -/
def joinSlash : List Str → Str
  | [] => []
  | [e] => e
  | e :: f :: es => e ++ '/' :: joinSlash (f :: es)

/-- A path is rooted when it starts with `/`. -/
def isRooted : Str → Bool
  | c :: _ => c = '/'
  | [] => false

/-- The elements `filepath.Clean` keeps, outermost first. -/
def keptElems (path : Str) : List Str :=
  ((splitPath path).foldl (cleanStep (isRooted path)) []).reverse

/-- The cleaned path from the kept elements: `/` before a rooted path, `.` for
an empty unrooted one. -/
def renderPath (rooted : Bool) (kept : List Str) : Str :=
  if rooted then '/' :: joinSlash kept
  else if kept = [] then ['.'] else joinSlash kept

/-- Go's `filepath.Clean`. -/
def Clean (path : Str) : Str := renderPath (isRooted path) (keptElems path)

/-- Go's `filepath.Join`: leading empty elements are ignored, the rest is joined
with `/` and cleaned; all elements empty gives the empty string. -/
def Join : List Str → Str
  | [] => []
  | e :: es => if e = [] then Join es else Clean (joinSlash (e :: es))

/-- The destination path computed in `main` (source lines 327-331). -/
def destPath (mediaPath showName title : Str) (season episode : Int) : Str :=
  Join [mediaPath,
        showName ++ "/".toList,
        showName ++ " - ".toList ++ title ++ " - S".toList ++ fmtInt 2 season ++
          "E".toList ++ fmtInt 2 episode ++ ".mp4".toList]

/-! ## Rendition manifest (`PlaylistStreams`) -/

/-- One `rendition` record of the manifest; every field is a string in the source
(`Typ` is the source field `Type`, a reserved word here). -/
structure Rendition where
  Text : Str
  Cdn : Str
  Duration : Str
  Width : Str
  Height : Str
  Typ : Str
  Bitrate : Str
  Src : Str
deriving DecidableEq, Repr

/-- The decoded manifest: `streams.Video.Item.Rendition` and the character data
around it. -/
structure PlaylistStreams where
  Text : Str
  Version : Str
  VideoText : Str
  ItemText : Str
  Rendition : List Rendition
deriving DecidableEq, Repr

/-- The selection loop of `extractBestQualityStream` (source lines 234-244):
start from `Rendition[0]`, range over all renditions with their index, skip
index 0, and replace the running best when the rendition's `Bitrate` string is
greater (Go string comparison) than the running best's. -/
def bestRendition (first : Rendition) (rs : List Rendition) : Rendition :=
  rs.enum.foldl
    (fun best ir => if ir.1 = 0 then best
                    else if strGt ir.2.Bitrate best.Bitrate then ir.2 else best)
    first

/-- The tail of `extractBestQualityStream` after the manifest is decoded
(source lines 230-250). -/
def selectStream (streams : PlaylistStreams) : Str × Option Str :=
  match streams.Rendition with
  | [] => ([], some "no renditions found in bitrate".toList)
  | r0 :: rest =>
    let best := bestRendition r0 (r0 :: rest)
    if best.Src = [] then ([], some "empty rendition stream url".toList)
    else (best.Src, none)

/-- Selection by numeric bitrate, as the specification words it: keep a running
best, replace it when a later rendition's bitrate is strictly greater as a
number. -/
def numericBest (first : Rendition) (rest : List Rendition) : Rendition :=
  rest.foldl
    (fun best r => if decVal best.Bitrate < decVal r.Bitrate then r else best)
    first

/-- A rendition with the given bitrate and source, other fields empty. -/
def mkRendition (bitrate src : Str) : Rendition :=
  { Text := [], Cdn := [], Duration := [], Width := [], Height := [], Typ := [],
    Bitrate := bitrate, Src := src }

/-! ## Documents -/

/-- The source's `Episode`. -/
structure Episode where
  Url : Str
  Title : Str
  Show : Str
  Season : Int
  Episode : Int
deriving DecidableEq, Repr

/-- The `guid` element of the media descriptor. -/
structure PlaylistGuid where
  Text : Str
  IsPermaLink : Str
deriving DecidableEq, Repr

/-- The `content` element of the media descriptor; `URL` points to the
rendition manifest. -/
structure PlaylistContent where
  Text : Str
  Duration : Str
  IsDefault : Str
  Typ : Str
  URL : Str
deriving DecidableEq, Repr

/-- The `player` element of the media descriptor. -/
structure PlaylistPlayer where
  Text : Str
  URL : Str
deriving DecidableEq, Repr

/-- A `category` element of the media descriptor. -/
structure PlaylistCategory where
  Text : Str
  Scheme : Str
deriving DecidableEq, Repr

/-- The `group` element of the media descriptor. -/
structure PlaylistGroup where
  Text : Str
  Content : PlaylistContent
  Player : PlaylistPlayer
  Category : List PlaylistCategory
deriving DecidableEq, Repr

/-- The `item` element of the media descriptor. -/
structure PlaylistItem where
  Text : Str
  Title : Str
  Link : Str
  AirTime : Str
  PubDate : Str
  EpisodeOid : Str
  Description : Str
  Guid : PlaylistGuid
  Group : PlaylistGroup
deriving DecidableEq, Repr

/-- The `channel` element of the media descriptor. -/
structure PlaylistChannel where
  Text : Str
  Description : Str
  Item : PlaylistItem
deriving DecidableEq, Repr

/-- The source's `Playlist` (the media descriptor). -/
structure Playlist where
  Text : Str
  Media : Str
  Mediaad : Str
  Version : Str
  Channel : PlaylistChannel
deriving DecidableEq, Repr

/-- An HTML element as `goquery` sees it: its attributes in document order and
the text of the element and its descendants. -/
structure Element where
  attrs : List (Str × Str)
  text : Str
deriving DecidableEq, Repr

/-- A `goquery.Selection`: the matched elements in document order. -/
abbrev Selection := List Element

/-- The method `Selection.Attr` of `goquery`: the named attribute of the FIRST
element of the selection, and whether it exists. -/
def Selection.Attr (s : Selection) (name : Str) : Option Str :=
  match s with
  | [] => none
  | e :: _ => (e.attrs.find? (fun kv => kv.1 = name)).map (fun kv => kv.2)

/-- The method `Selection.Text` of `goquery`: the combined text of every
element of the selection. -/
def Selection.Text (s : Selection) : Str := (s.map (fun e => e.text)).flatten

/-- One node matched by `li.fullepisode.playlist-item`, given by the selections
its three `Find` calls return. -/
structure ListingNode where
  a : Selection
  img : Selection
  pTitle : Selection
deriving DecidableEq, Repr

/-- The decoders the program calls (`goquery`, `encoding/xml`, `net/url`), as
functions of the text they are given. -/
structure Decoders where
  /-- Parse a listing page and `Find("li.fullepisode.playlist-item")`. -/
  listing : Str → Except Str (List ListingNode)
  /-- Parse an episode page and take `Find("h6.season-episode").Text()`. -/
  numberingLabel : Str → Except Str Str
  /-- Parse an episode page and take `Find("div.player-wrapper").Attr("data-mrss")`. -/
  playerMrss : Str → Except Str (Option Str)
  /-- Decode the media descriptor with `xml.Unmarshal`. -/
  unmarshalPlaylist : Str → Except Str Playlist
  /-- Decode the rendition manifest with `xml.Unmarshal`. -/
  unmarshalStreams : Str → Except Str PlaylistStreams
  /-- Render `url.URL` with scheme `http`, the given host and the given path. -/
  urlString : Str → Str → Str

/-! ## Effects -/

/-- An HTTP response: the status code and the outcome of reading the body
(`ioutil.ReadAll`). -/
structure Response where
  StatusCode : Int
  Body : Except Str Str

/-- Outcome of `os.Stat` as `main` uses it: no error, an error for which
`os.IsNotExist` holds, or any other error. -/
inductive StatResult where
  | found
  | notExist
  | otherError
deriving DecidableEq, Repr

/-- The calls that leave the program, in the order performed. -/
inductive Effect where
  | log (msg : Str)
  | printDefaults
  | httpGet (url : Str)
  | stat (path : Str)
  | tempFile
  | run (argv : List Str)
  | rename (src dst : Str)
  | remove (path : Str)
  | close (path : Str)
deriving DecidableEq, Repr

/-- The outside world: every call takes the current state of the world and
returns its outcome with the next state. -/
structure World (σ : Type) where
  /-- Performs `http.Get`. -/
  httpGet : Str → σ → Except Str Response × σ
  /-- Performs `os.Stat`. -/
  stat : Str → σ → StatResult × σ
  /-- Performs `ioutil.TempFile("/tmp/", "nicky")`; gives the file's name. -/
  tempFile : σ → Except Str Str × σ
  /-- Performs `cmd.Run()` for the given command line. -/
  run : List Str → σ → Option Str × σ
  /-- Performs `os.Rename`. -/
  rename : Str → Str → σ → Option Str × σ
  /-- Performs `os.Remove`. -/
  remove : Str → σ → σ
  /-- Performs `f.Close()`. -/
  close : Str → σ → σ

/-! ## The program -/

/-- The source's `fetchPage`. -/
def fetchPage {σ : Type} (W : World σ) (url : Str) (w : σ) :
    (Str × Option Str) × List Effect × σ :=
  match W.httpGet url w with
  | (.error e, w1) =>
    (([], some ("could not fetch ".toList ++ url ++ " : ".toList ++ e)), [.httpGet url], w1)
  | (.ok resp, w1) =>
    if resp.StatusCode < 200 ∨ resp.StatusCode > 399 then
      (([], some ("url ".toList ++ url ++ " returned statusCode ".toList ++
          fmtInt 0 resp.StatusCode)), [.httpGet url], w1)
    else
      match resp.Body with
      | .error e =>
        (([], some ("could not read body of ".toList ++ url ++ " : ".toList ++ e)),
          [.httpGet url], w1)
      | .ok html => ((html, none), [.httpGet url], w1)

/-- The body of the callback of `extractEpisodes`: the episodes collected so far,
extended by the node's episode unless one of its three parts is missing.  (The
diagnostics printed for a skipped node are not modelled.) -/
def collectEpisode (episodes : List Episode) (s : ListingNode) : List Episode :=
  match s.a.Attr "href".toList with
  | none => episodes
  | some episodeUrl =>
    match s.img.Attr "title".toList with
    | none => episodes
    | some episodeTitle =>
      let showName := s.pTitle.Text
      if showName = [] then episodes
      else episodes ++ [{ Url := episodeUrl, Title := episodeTitle, Show := showName,
                          Season := 0, Episode := 0 }]

/-- The source's `extractEpisodes`. -/
def extractEpisodes (D : Decoders) (contents : Str) : List Episode × Option Str :=
  match D.listing contents with
  | .error e => ([], some ("could not parse episodes page: ".toList ++ e))
  | .ok nodes => (nodes.foldl collectEpisode [], none)

/-- The source's `extractEpisodeNumbering`; the result is
`(season, episode, err)`. -/
def extractEpisodeNumbering (D : Decoders) (contents : Str) : Int × Int × Option Str :=
  match D.numberingLabel contents with
  | .error e => (-1, -1, some ("could not parse episode page: ".toList ++ e))
  | .ok text =>
    let episodeText := TrimSpace text
    if episodeText = [] then (-1, -1, some "missing season/episode".toList)
    else
      let episodeParts := FindStringSubmatch epiRegex episodeText
      if episodeParts.length ≠ 2 then
        (-1, -1, some ("could not parse episode parts: ".toList ++ episodeText))
      else
        match Atoi (episodeParts.getD 1 []) with
        | (_, some _) =>
          (-1, -1, some ("invalid episode number: ".toList ++ episodeParts.getD 1 []))
        | (episode, none) =>
          let seasonParts := FindStringSubmatch sesRegex episodeText
          if seasonParts.length ≠ 2 then
            (-1, -1, some ("could not parse seasonparts: ".toList ++ episodeText))
          else
            match Atoi (seasonParts.getD 1 []) with
            | (_, some _) =>
              (-1, -1, some ("invalid season number: ".toList ++ seasonParts.getD 1 []))
            | (season, none) => (season, episode, none)

/-- The zero value `Playlist{}`. -/
def Playlist.zero : Playlist :=
  { Text := [], Media := [], Mediaad := [], Version := [],
    Channel :=
      { Text := [], Description := [],
        Item :=
          { Text := [], Title := [], Link := [], AirTime := [], PubDate := [],
            EpisodeOid := [], Description := [],
            Guid := { Text := [], IsPermaLink := [] },
            Group :=
              { Text := [],
                Content := { Text := [], Duration := [], IsDefault := [], Typ := [], URL := [] },
                Player := { Text := [], URL := [] },
                Category := [] } } } }

/-- The source's `extractPlaylist`. -/
def extractPlaylist {σ : Type} (W : World σ) (D : Decoders) (contents : Str) (w : σ) :
    (Playlist × Option Str) × List Effect × σ :=
  match D.playerMrss contents with
  | .error e => ((Playlist.zero, some ("could not parse for playlist url: ".toList ++ e)), [], w)
  | .ok attr =>
    let playlistUrl := attr.getD []
    if playlistUrl = [] ∨ attr = none then
      ((Playlist.zero, some "could not extract playlist url".toList), [], w)
    else
      match fetchPage W playlistUrl w with
      | ((_, some _), fx, w1) =>
        ((Playlist.zero, some ("could not fetch playlist ".toList ++ playlistUrl)), fx, w1)
      | ((playlistPage, none), fx, w1) =>
        match D.unmarshalPlaylist playlistPage with
        | .error e =>
          ((Playlist.zero, some ("could not marshal playlist: ".toList ++ e)), fx, w1)
        | .ok playlist => ((playlist, none), fx, w1)

/-- The source's `extractBestQualityStream`. -/
def extractBestQualityStream {σ : Type} (W : World σ) (D : Decoders) (playlist : Playlist)
    (w : σ) : (Str × Option Str) × List Effect × σ :=
  let url := playlist.Channel.Item.Group.Content.URL
  if url = [] then (([], some "could not parse media:content url".toList), [], w)
  else
    match fetchPage W url w with
    | ((_, some err), fx, w1) =>
      (([], some ("could not fetch streams page: ".toList ++ err)), fx, w1)
    | ((streamsPage, none), fx, w1) =>
      match D.unmarshalStreams streamsPage with
      | .error e => (([], some ("could not unmarshal streamsPage: ".toList ++ e)), fx, w1)
      | .ok streams => (selectStream streams, fx, w1)

/-- The source's `ScrapeRTMP`; the deferred `os.Remove` and `f.Close` run, in
that order, on every return after the temporary file exists. -/
def ScrapeRTMP {σ : Type} (W : World σ) (rtmpPath rtmpUrl dest : Str) (w : σ) :
    Option Str × List Effect × σ :=
  match W.tempFile w with
  | (.error e, w1) => (some ("could not create temp file: %v".toList ++ e), [.tempFile], w1)
  | (.ok name, w1) =>
    let argv := [rtmpPath, "--quiet".toList, "--url".toList, rtmpUrl, "--flv".toList, name]
    match W.run argv w1 with
    | (some e, w2) =>
      (some ("could not run rtmpdump: %v".toList ++ e),
        [.tempFile, .run argv, .remove name, .close name], W.close name (W.remove name w2))
    | (none, w2) =>
      match W.rename name dest w2 with
      | (some e, w3) =>
        (some ("could not move file: %v".toList ++ e),
          [.tempFile, .run argv, .rename name dest, .remove name, .close name],
          W.close name (W.remove name w3))
      | (none, w3) =>
        (none, [.tempFile, .run argv, .rename name dest, .remove name, .close name],
          W.close name (W.remove name w3))

/-- The body of the loop over the episodes in `main` (source lines 313-356):
the effects of one iteration and the world after it.  Every `continue` ends the
iteration. -/
def processEpisode {σ : Type} (W : World σ) (D : Decoders) (mediaPath rtmpPath : Str)
    (epi : Episode) (w : σ) : List Effect × σ :=
  let fx0 := [Effect.log ("Downloading ".toList ++ epi.Show ++ " ".toList ++ epi.Title)]
  match fetchPage W epi.Url w with
  | ((_, some err), fx1, w1) =>
    (fx0 ++ fx1 ++ [.log ("error: could not fetch episode page: ".toList ++ err)], w1)
  | ((page, none), fx1, w1) =>
    match extractEpisodeNumbering D page with
    | (_, _, some err) =>
      (fx0 ++ fx1 ++ [.log ("error: could not extract episode numbering: ".toList ++ err)], w1)
    | (season, episode, none) =>
      let dest := destPath mediaPath epi.Show epi.Title season episode
      let fx2 := fx0 ++ fx1 ++ [.log ("will be saved to ".toList ++ dest), .stat dest]
      match W.stat dest w1 with
      | (st, w2) =>
        if st ≠ StatResult.notExist then (fx2 ++ [.log "file already exists".toList], w2)
        else
          match extractPlaylist W D page w2 with
          | ((_, some err), fx3, w3) =>
            (fx2 ++ fx3 ++ [.log ("error: could not extract playlist: ".toList ++ err)], w3)
          | ((playlist, none), fx3, w3) =>
            match extractBestQualityStream W D playlist w3 with
            | ((_, some err), fx4, w4) =>
              (fx2 ++ fx3 ++ fx4 ++
                [.log ("error: could not extract best stream: ".toList ++ err)], w4)
            | ((streamUrl, none), fx4, w4) =>
              let fx5 := fx2 ++ fx3 ++ fx4 ++ [.log ("best stream: ".toList ++ streamUrl)]
              match ScrapeRTMP W rtmpPath streamUrl dest w4 with
              | (some err, fx6, w5) =>
                (fx5 ++ fx6 ++ [.log ("could not scrape rtmp to ".toList ++ dest ++
                  ": ".toList ++ err)], w5)
              | (none, fx6, w5) => (fx5 ++ fx6, w5)

/-- The loop over the episodes in `main` (source lines 312-357). -/
def mainLoop {σ : Type} (W : World σ) (D : Decoders) (mediaPath rtmpPath : Str) :
    List Episode → σ → List Effect × σ
  | [], w => ([], w)
  | epi :: rest, w =>
    match processEpisode W D mediaPath rtmpPath epi w with
    | (fx, w1) =>
      match mainLoop W D mediaPath rtmpPath rest w1 with
      | (fxs, w2) => (fx ++ fxs, w2)

/-- The command line flags of `main`, after `flag.Parse`. -/
structure Flags where
  website : Str
  showId : Str
  mediaPath : Str
  rtmpPath : Str
deriving DecidableEq, Repr

/-- The source's `main`: the exit status, the effects and the final world.
`log.Fatalf` logs and exits with status 1. -/
def main {σ : Type} (W : World σ) (D : Decoders) (flags : Flags) (w : σ) :
    Nat × List Effect × σ :=
  if flags.showId = [] ∨ flags.website = [] ∨ flags.mediaPath = [] then
    (1, [.printDefaults], w)
  else
    let showPath := D.urlString flags.website ('/' :: flags.showId)
    let fx0 := [Effect.log ("Scraping show ".toList ++ showPath)]
    match fetchPage W showPath w with
    | ((_, some err), fx1, w1) =>
      (1, fx0 ++ fx1 ++ [.log ("could not fetch show page ".toList ++ showPath ++
        ": ".toList ++ err)], w1)
    | ((mainPage, none), fx1, w1) =>
      match extractEpisodes D mainPage with
      | (_, some err) =>
        (1, fx0 ++ fx1 ++ [.log "extracting episodes".toList,
          .log ("could not extract episodes: ".toList ++ err)], w1)
      | (episodes, none) =>
        let fx2 := fx0 ++ fx1 ++ [.log "extracting episodes".toList,
          .log ("found ".toList ++ fmtInt 0 episodes.length ++ " episodes for ".toList ++
            flags.showId)]
        match mainLoop W D flags.mediaPath flags.rtmpPath episodes w1 with
        | (fxs, w2) => (0, fx2 ++ fxs, w2)

/-! ## Reference notions used in the statements -/

/-- The named attribute of one element, when it has it. -/
def Element.attr (e : Element) (name : Str) : Option Str :=
  (e.attrs.find? (fun kv => kv.1 = name)).map (fun kv => kv.2)

/-- A listing node is well formed, in the specification's words, when it has a
link with an `href`, an image with a `title` attribute and a non-empty
show-name label. -/
def wellFormed (s : ListingNode) : Bool :=
  s.a.any (fun e => (e.attr "href".toList).isSome) &&
    s.img.any (fun e => (e.attr "title".toList).isSome) &&
    !(s.pTitle.Text).isEmpty

/-- What the source tests: the FIRST `a` of the node has an `href`, the FIRST
`img` of the node has a `title`, and the text of its `p.title` elements is not
empty. -/
def firstWellFormed (s : ListingNode) : Bool :=
  (s.a.Attr "href".toList).isSome && (s.img.Attr "title".toList).isSome &&
    !(s.pTitle.Text).isEmpty

/-- The episode reference a listing node stands for. -/
def episodeOf (s : ListingNode) : Episode :=
  { Url := (s.a.Attr "href".toList).getD [],
    Title := (s.img.Attr "title".toList).getD [],
    Show := s.pTitle.Text, Season := 0, Episode := 0 }

/-- The error text of `extractBestQualityStream` for a manifest without renditions. -/
def errNoRenditions : Str := "no renditions found in bitrate".toList

/-- The error text of `extractBestQualityStream` for an empty source URL. -/
def errEmptySrc : Str := "empty rendition stream url".toList

/-- A number padded to at least two digits, as the specification words it. -/
def pad2 (n : Nat) : Str :=
  if n < 10 then ['0', Nat.digitChar n] else Nat.toDigits 10 n

/-- The output layout as the specification writes it:
`<mediaRoot>/<show>/<show> - <title> - S<season:02>E<episode:02>.mp4`. -/
def specPath (mediaRoot showName title : Str) (season episode : Nat) : Str :=
  mediaRoot ++ "/".toList ++ showName ++ "/".toList ++ showName ++ " - ".toList ++ title ++
    " - S".toList ++ pad2 season ++ "E".toList ++ pad2 episode ++ ".mp4".toList

/-- Marks the effect that opens an iteration of the loop over the episodes: the
log line `Downloading <show> <title>`. -/
def startsEpisode : Effect → Bool
  | .log m => "Downloading ".toList.isPrefixOf m
  | _ => false

/-- The log line that opens the iteration for an episode. -/
def startLine (epi : Episode) : Effect :=
  .log ("Downloading ".toList ++ epi.Show ++ " ".toList ++ epi.Title)

/-! ## Concrete worlds for the examples -/

/-- A small world: the state is the list of paths that exist; every request
succeeds with status 200 and a body equal to the requested URL; the recorder
succeeds; a rename creates its destination. -/
def diskWorld : World (List Str) where
  httpGet url fs := (.ok { StatusCode := 200, Body := .ok url }, fs)
  stat path fs := (if path ∈ fs then StatResult.found else StatResult.notExist, fs)
  tempFile fs := (.ok "/tmp/nicky1".toList, fs)
  run _ fs := (none, fs)
  rename _ dst fs := (none, dst :: fs)
  remove _ fs := fs
  close _ fs := fs

/-- A media descriptor whose content URL is the given one. -/
def playlistWithUrl (url : Str) : Playlist :=
  { Playlist.zero with
    Channel := { Playlist.zero.Channel with
      Item := { Playlist.zero.Channel.Item with
        Group := { Playlist.zero.Channel.Item.Group with
          Content := { Playlist.zero.Channel.Item.Group.Content with URL := url } } } } }

/-- A manifest with the given renditions. -/
def manifestOf (rs : List Rendition) : PlaylistStreams :=
  { Text := [], Version := [], VideoText := [], ItemText := [], Rendition := rs }

/-- Decoders that answer every page with fixed documents: the given listing
nodes, the given numbering label, a player pointing to `http://x/mrss`, a media
descriptor pointing to `http://x/manifest`, and the given manifest. -/
def fixedDecoders (nodes : List ListingNode) (label : Str) (rs : List Rendition) : Decoders where
  listing _ := .ok nodes
  numberingLabel _ := .ok label
  playerMrss _ := .ok (some "http://x/mrss".toList)
  unmarshalPlaylist _ := .ok (playlistWithUrl "http://x/manifest".toList)
  unmarshalStreams _ := .ok (manifestOf rs)
  urlString host path := "http://".toList ++ host ++ path

/-- The listing node of the end-to-end example: link `http://x/pilot`, title
`Pilot`, show `ShowX`. -/
def pilotNode : ListingNode :=
  { a := [{ attrs := [("href".toList, "http://x/pilot".toList)], text := [] }],
    img := [{ attrs := [("title".toList, "Pilot".toList)], text := [] }],
    pTitle := [{ attrs := [], text := "ShowX".toList }] }

/-- A listing node whose image has no `title`. -/
def untitledNode : ListingNode :=
  { a := [{ attrs := [("href".toList, "http://x/other".toList)], text := [] }],
    img := [{ attrs := [], text := [] }],
    pTitle := [{ attrs := [], text := "ShowX".toList }] }

/-- A listing node with two links, of which only the second has an `href`, a
titled image and a show-name label. -/
def twoLinkNode : ListingNode :=
  { a := [{ attrs := [("name".toList, "top".toList)], text := [] },
          { attrs := [("href".toList, "http://x/pilot".toList)], text := [] }],
    img := [{ attrs := [("title".toList, "Pilot".toList)], text := [] }],
    pTitle := [{ attrs := [], text := "ShowX".toList }] }

/-- A world like `diskWorld` in which the request for `http://x/down` fails at
the transport. -/
def flakyWorld : World (List Str) where
  httpGet url fs :=
    if url = "http://x/down".toList then (.error "timeout".toList, fs)
    else diskWorld.httpGet url fs
  stat := diskWorld.stat
  tempFile := diskWorld.tempFile
  run := diskWorld.run
  rename := diskWorld.rename
  remove := diskWorld.remove
  close := diskWorld.close

/-- An episode reference whose page is at `http://x/down`. -/
def downEpisode : Episode :=
  { Url := "http://x/down".toList, Title := "Lost".toList, Show := "ShowX".toList,
    Season := 0, Episode := 0 }

/-- The renditions of the end-to-end example: bitrates 800 and 2000. -/
def pilotRenditions : List Rendition :=
  [mkRendition "800".toList "http://x/low.flv".toList,
   mkRendition "2000".toList "http://x/high.flv".toList]

/-! # Theorems -/

/-! ## `fetchPage` -/

/-- C9. When the transport succeeds and the body can be read, `fetchPage` returns
an error exactly when the status code is below 200 or above 399, and for every
status code from 200 to 399 it returns the body unchanged with no error. -/
theorem fetchPage_error_iff_status {σ : Type} (W : World σ) (url : Str) (w w1 : σ)
    (resp : Response) (html : Str)
    (hget : W.httpGet url w = (.ok resp, w1)) (hbody : resp.Body = .ok html) :
    ((fetchPage W url w).1.2 ≠ none ↔ (resp.StatusCode < 200 ∨ 399 < resp.StatusCode)) ∧
    (200 ≤ resp.StatusCode ∧ resp.StatusCode ≤ 399 →
      (fetchPage W url w).1 = (html, none)) := by
  unfold fetchPage
  rw [hget]
  dsimp only
  by_cases hs : resp.StatusCode < 200 ∨ resp.StatusCode > 399
  · rw [if_pos hs]
    refine ⟨⟨fun _ => hs, fun _ => by simp⟩, fun h => ?_⟩
    rcases hs with hs | hs <;> omega
  · rw [if_neg hs, hbody]
    exact ⟨⟨fun h => absurd rfl h, fun h => absurd h hs⟩, fun _ => rfl⟩

/-- C9, at status 200 in `diskWorld`: the body comes back unchanged. -/
theorem fetchPage_error_iff_status_witness :
    diskWorld.httpGet "http://x/pilot".toList [] =
        (.ok { StatusCode := 200, Body := .ok "http://x/pilot".toList }, []) ∧
      (fetchPage diskWorld "http://x/pilot".toList []).1 = ("http://x/pilot".toList, none) :=
  ⟨rfl, (fetchPage_error_iff_status diskWorld "http://x/pilot".toList [] []
      { StatusCode := 200, Body := .ok "http://x/pilot".toList } "http://x/pilot".toList
      rfl rfl).2 ⟨by decide, by decide⟩⟩

/-! ## `extractEpisodeNumbering` fails as a unit -/

/-- Every error return of `extractEpisodeNumbering` carries -1 for both numbers. -/
theorem extractEpisodeNumbering_neg_one_of_error (D : Decoders) (contents : Str)
    (herr : (extractEpisodeNumbering D contents).2.2 ≠ none) :
    (extractEpisodeNumbering D contents).1 = -1 ∧
      (extractEpisodeNumbering D contents).2.1 = -1 := by
  unfold extractEpisodeNumbering at herr ⊢
  split
  · exact ⟨rfl, rfl⟩
  · dsimp only at herr ⊢
    split
    · exact ⟨rfl, rfl⟩
    · split
      · exact ⟨rfl, rfl⟩
      · split
        · exact ⟨rfl, rfl⟩
        · split
          · exact ⟨rfl, rfl⟩
          · split
            · exact ⟨rfl, rfl⟩
            · rename_i h1 h2 h3 h4 h5 h6 h7 h8
              simp_all

/-- C6. Whenever `extractEpisodeNumbering` returns an error (the page does not
parse, the label is absent or empty after trimming, a pattern does not match, or
a matched digit string does not parse as an integer), both returned numbers are
-1: no partial result is returned, also when the episode number was already
parsed. -/
theorem extractEpisodeNumbering_error_unit (D : Decoders) (contents : Str)
    (herr : (extractEpisodeNumbering D contents).2.2 ≠ none) :
    (extractEpisodeNumbering D contents).1 = -1 ∧
      (extractEpisodeNumbering D contents).2.1 = -1 :=
  extractEpisodeNumbering_neg_one_of_error D contents herr

/-- C6, on the label `Aflevering 3`: the episode number parses, the season
pattern does not match, and both results are -1. -/
theorem extractEpisodeNumbering_error_unit_witness :
    (extractEpisodeNumbering (fixedDecoders [] "Aflevering 3".toList []) []).2.2 ≠ none ∧
      (extractEpisodeNumbering (fixedDecoders [] "Aflevering 3".toList []) []).1 = -1 ∧
      (extractEpisodeNumbering (fixedDecoders [] "Aflevering 3".toList []) []).2.1 = -1 :=
  ⟨by decide, extractEpisodeNumbering_error_unit _ _ (by decide)⟩

/-! ## `extractEpisodes` -/

theorem collectEpisode_eq (episodes : List Episode) (s : ListingNode) :
    collectEpisode episodes s =
      episodes ++ (if firstWellFormed s then [episodeOf s] else []) := by
  unfold collectEpisode firstWellFormed episodeOf
  cases ha : s.a.Attr "href".toList with
  | none => simp
  | some u =>
    cases hi : s.img.Attr "title".toList with
    | none => simp
    | some t =>
      by_cases hp : s.pTitle.Text = []
      · simp [hp]
      · have : (s.pTitle.Text).isEmpty = false := by
          cases hq : s.pTitle.Text with
          | nil => exact absurd hq hp
          | cons _ _ => rfl
        simp [hp, this]

theorem foldl_collectEpisode (nodes : List ListingNode) (acc : List Episode) :
    nodes.foldl collectEpisode acc = acc ++ (nodes.filter firstWellFormed).map episodeOf := by
  induction nodes generalizing acc with
  | nil => simp
  | cons s rest ih =>
    rw [List.foldl_cons, ih, collectEpisode_eq]
    by_cases h : firstWellFormed s = true
    · simp [h, List.filter_cons]
    · simp [h, List.filter_cons]

theorem firstWellFormed_wellFormed (s : ListingNode) (h : firstWellFormed s = true) :
    wellFormed s = true := by
  unfold firstWellFormed at h
  unfold wellFormed
  simp only [Bool.and_eq_true] at h ⊢
  obtain ⟨⟨ha, hi⟩, hp⟩ := h
  refine ⟨⟨?_, ?_⟩, hp⟩
  · cases hs : s.a with
    | nil => rw [hs] at ha; exact absurd ha (by simp [Selection.Attr])
    | cons e es =>
      rw [hs] at ha
      rw [List.any_cons, Bool.or_eq_true]
      exact Or.inl ha
  · cases hs : s.img with
    | nil => rw [hs] at hi; exact absurd hi (by simp [Selection.Attr])
    | cons e es =>
      rw [hs] at hi
      rw [List.any_cons, Bool.or_eq_true]
      exact Or.inl hi

/-- C3, as the code has it. When the listing page parses, `extractEpisodes`
succeeds and returns one episode reference per matched node whose FIRST link has
an `href`, whose FIRST image has a `title` and whose show-name label is not
empty, in document order, each with that link's URL, that image's title and the
label; every other node contributes nothing, so N such nodes among M others give
exactly N references.  Every such node is well formed in the specification's
sense. -/
theorem extractEpisodes_first_parts (D : Decoders) (contents : Str)
    (nodes : List ListingNode) (hparse : D.listing contents = .ok nodes) :
    extractEpisodes D contents = ((nodes.filter firstWellFormed).map episodeOf, none) ∧
    (extractEpisodes D contents).1.length = nodes.countP firstWellFormed ∧
    nodes.countP firstWellFormed + nodes.countP (fun s => !firstWellFormed s) = nodes.length ∧
    (∀ s ∈ nodes, firstWellFormed s = true →
      s.a.Attr "href".toList = some (episodeOf s).Url ∧
      s.img.Attr "title".toList = some (episodeOf s).Title ∧
      s.pTitle.Text = (episodeOf s).Show ∧ (episodeOf s).Show ≠ []) ∧
    (∀ s ∈ nodes, firstWellFormed s = true → wellFormed s = true) := by
  have h1 : extractEpisodes D contents = ((nodes.filter firstWellFormed).map episodeOf, none) := by
    unfold extractEpisodes
    rw [hparse]
    dsimp only
    rw [foldl_collectEpisode, List.nil_append]
  refine ⟨h1, ?_, ?_, ?_, fun s _ hw => firstWellFormed_wellFormed s hw⟩
  · rw [h1]
    simp [List.countP_eq_length_filter]
  · have := List.length_eq_countP_add_countP firstWellFormed nodes
    simpa using this.symm
  · intro s _ hw
    unfold firstWellFormed at hw
    unfold episodeOf
    cases ha : s.a.Attr "href".toList <;> cases hi : s.img.Attr "title".toList <;>
      cases hp : s.pTitle.Text <;> simp_all

/-- C3, on a page with an untitled node, a node whose second link has the
`href`, and the pilot node: only the pilot node gives a reference. -/
theorem extractEpisodes_first_parts_witness :
    (fixedDecoders [untitledNode, twoLinkNode, pilotNode] [] []).listing [] =
      .ok [untitledNode, twoLinkNode, pilotNode] ∧
    extractEpisodes (fixedDecoders [untitledNode, twoLinkNode, pilotNode] [] []) [] =
      ([{ Url := "http://x/pilot".toList, Title := "Pilot".toList, Show := "ShowX".toList,
          Season := 0, Episode := 0 }], none) :=
  ⟨rfl, (extractEpisodes_first_parts (fixedDecoders [untitledNode, twoLinkNode, pilotNode] [] []) []
      [untitledNode, twoLinkNode, pilotNode] rfl).1.trans (by decide)⟩

/-- C3 as stated fails: a listing whose only matched node has a link with an
`href` (its second link), an image with a `title` and a non-empty show-name
label is one well-formed entry, yet `extractEpisodes` returns no reference,
because `Attr` reads the first link only. -/
theorem extractEpisodes_second_link_dropped :
    wellFormed twoLinkNode = true ∧
    [twoLinkNode].countP wellFormed = 1 ∧
    extractEpisodes (fixedDecoders [twoLinkNode] [] []) [] = ([], none) := by
  refine ⟨by decide, by decide, by decide⟩

/-! ## Stream selection -/

theorem foldl_enumFrom_skip_zero (rs : List Rendition) (n : Nat) (hn : n ≠ 0) (b : Rendition) :
    (rs.enumFrom n).foldl
      (fun best ir => if ir.1 = 0 then best
                      else if strGt ir.2.Bitrate best.Bitrate then ir.2 else best) b =
    rs.foldl (fun best r => if strGt r.Bitrate best.Bitrate then r else best) b := by
  induction rs generalizing n b with
  | nil => rfl
  | cons r rest ih =>
    simp only [List.enumFrom_cons, List.foldl_cons, if_neg hn]
    exact ih (n + 1) (Nat.succ_ne_zero n) _

/-- The loop of `extractBestQualityStream` is a left fold over the renditions
after the first. -/
theorem bestRendition_eq_foldl (r0 : Rendition) (rest : List Rendition) :
    bestRendition r0 (r0 :: rest) =
      rest.foldl (fun best r => if strGt r.Bitrate best.Bitrate then r else best) r0 := by
  unfold bestRendition
  simp only [List.enum, List.enumFrom_cons, List.foldl_cons, if_true]
  exact foldl_enumFrom_skip_zero rest 1 (by decide) r0

theorem decVal_foldl (cs : Str) (acc : Nat) :
    cs.foldl (fun a c => a * 10 + digitVal c) acc = acc * 10 ^ cs.length + decVal cs := by
  unfold decVal
  induction cs generalizing acc with
  | nil => simp
  | cons c cs ih =>
    simp only [List.foldl_cons, List.length_cons]
    rw [ih (acc * 10 + digitVal c), ih (0 * 10 + digitVal c)]
    ring

theorem decVal_cons (c : Char) (cs : Str) :
    decVal (c :: cs) = digitVal c * 10 ^ cs.length + decVal cs := by
  show (c :: cs).foldl (fun a c => a * 10 + digitVal c) 0 = _
  rw [List.foldl_cons, decVal_foldl]
  simp

theorem digitVal_le_of_isDigit {c : Char} (h : isDigit c = true) : digitVal c ≤ 9 := by
  unfold isDigit at h
  unfold digitVal
  simp only [Bool.and_eq_true, decide_eq_true_eq] at h
  omega

theorem toNat_eq_of_isDigit {c : Char} (h : isDigit c = true) : c.toNat = digitVal c + 48 := by
  unfold isDigit at h
  unfold digitVal
  simp only [Bool.and_eq_true, decide_eq_true_eq] at h
  omega

theorem decVal_lt_pow (cs : Str) (h : cs.all isDigit = true) : decVal cs < 10 ^ cs.length := by
  induction cs with
  | nil => simp [decVal]
  | cons c cs ih =>
    simp only [List.all_cons, Bool.and_eq_true] at h
    rw [decVal_cons, List.length_cons, pow_succ]
    have h1 := digitVal_le_of_isDigit h.1
    have h2 := ih h.2
    nlinarith

/-- On digit strings of equal length, Go's string comparison agrees with the
comparison of the numeric values. -/
theorem strGt_eq_decVal_lt (a b : Str) (ha : a.all isDigit = true) (hb : b.all isDigit = true)
    (hlen : a.length = b.length) : strGt a b = decide (decVal b < decVal a) := by
  induction a generalizing b with
  | nil =>
    cases b with
    | nil => simp [strGt, decVal]
    | cons _ _ => simp at hlen
  | cons x xs ih =>
    cases b with
    | nil => simp at hlen
    | cons y ys =>
      simp only [List.all_cons, Bool.and_eq_true] at ha hb
      simp only [List.length_cons, Nat.add_right_cancel_iff] at hlen
      have hx := toNat_eq_of_isDigit ha.1
      have hy := toNat_eq_of_isDigit hb.1
      have bx := decVal_lt_pow xs ha.2
      have bY := decVal_lt_pow ys hb.2
      rw [hlen] at bx
      unfold strGt
      rw [decVal_cons, decVal_cons, hlen]
      by_cases h1 : y.toNat < x.toNat
      · rw [if_pos h1]
        have : digitVal y + 1 ≤ digitVal x := by omega
        have := Nat.mul_le_mul_right (10 ^ ys.length) this
        symm
        rw [decide_eq_true_eq]
        nlinarith
      · rw [if_neg h1]
        by_cases h2 : x.toNat < y.toNat
        · rw [if_pos h2]
          have : digitVal x + 1 ≤ digitVal y := by omega
          have := Nat.mul_le_mul_right (10 ^ ys.length) this
          symm
          rw [decide_eq_false_iff_not]
          nlinarith
        · rw [if_neg h2]
          have hxy : digitVal x = digitVal y := by omega
          rw [ih ys ha.2 hb.2 hlen, hxy]
          simp

theorem numericBest_snoc (r0 : Rendition) (rest : List Rendition) (x : Rendition) :
    numericBest r0 (rest ++ [x]) =
      if decVal (numericBest r0 rest).Bitrate < decVal x.Bitrate then x
      else numericBest r0 rest := by
  unfold numericBest
  rw [List.foldl_append]
  rfl

/-- The numeric selection picks the first rendition of maximum numeric bitrate:
it sits at some index `i`, no rendition has a greater bitrate, and every
rendition before index `i` has a strictly smaller one. -/
theorem numericBest_first_max (r0 : Rendition) (rest : List Rendition) :
    ∃ i : Nat, (r0 :: rest)[i]? = some (numericBest r0 rest) ∧
      (∀ (j : Nat) (r : Rendition), (r0 :: rest)[j]? = some r →
        decVal r.Bitrate ≤ decVal (numericBest r0 rest).Bitrate) ∧
      (∀ (j : Nat) (r : Rendition), j < i → (r0 :: rest)[j]? = some r →
        decVal r.Bitrate < decVal (numericBest r0 rest).Bitrate) := by
  induction rest using List.reverseRecOn with
  | nil =>
    refine ⟨0, rfl, ?_, ?_⟩
    · intro j r hj
      cases j with
      | zero =>
        simp only [List.getElem?_cons_zero, Option.some.injEq] at hj
        subst hj
        exact le_refl _
      | succ j => simp at hj
    · intro j r hj
      exact absurd hj (Nat.not_lt_zero j)
  | append_singleton rest x ih =>
    obtain ⟨i, hi, hmax, hfirst⟩ := ih
    have hlen : i < (r0 :: rest).length := by
      by_contra hcon
      rw [List.getElem?_eq_none (by omega)] at hi
      exact Option.noConfusion hi
    rw [numericBest_snoc]
    have hsplit : ∀ j r, (r0 :: (rest ++ [x]))[j]? = some r →
        (r0 :: rest)[j]? = some r ∨ (j = (r0 :: rest).length ∧ r = x) := by
      intro j r hj
      rw [← List.cons_append] at hj
      by_cases hjl : j < (r0 :: rest).length
      · rw [List.getElem?_append_left hjl] at hj
        exact Or.inl hj
      · right
        rw [List.getElem?_append_right (by omega)] at hj
        have hj0 : j - (r0 :: rest).length = 0 := by
          by_contra hne
          obtain ⟨k, hk⟩ := Nat.exists_eq_succ_of_ne_zero hne
          rw [hk] at hj
          simp at hj
        rw [hj0] at hj
        simp only [List.getElem?_cons_zero, Option.some.injEq] at hj
        exact ⟨by omega, hj.symm⟩
    by_cases hx : decVal (numericBest r0 rest).Bitrate < decVal x.Bitrate
    · rw [if_pos hx]
      refine ⟨(r0 :: rest).length, ?_, ?_, ?_⟩
      · rw [← List.cons_append, List.getElem?_append_right (le_refl _)]
        simp
      · intro j r hj
        rcases hsplit j r hj with h | ⟨_, h⟩
        · exact le_trans (hmax j r h) (le_of_lt hx)
        · rw [h]
      · intro j r hjl hj
        rcases hsplit j r hj with h | ⟨h, _⟩
        · exact lt_of_le_of_lt (hmax j r h) hx
        · omega
    · rw [if_neg hx]
      refine ⟨i, ?_, ?_, ?_⟩
      · rw [← List.cons_append, List.getElem?_append_left hlen]
        exact hi
      · intro j r hj
        rcases hsplit j r hj with h | ⟨_, h⟩
        · exact hmax j r h
        · rw [h]
          exact not_lt.mp hx
      · intro j r hjl hj
        rcases hsplit j r hj with h | ⟨h, _⟩
        · exact hfirst j r hjl h
        · omega

theorem foldl_raw_eq_numeric (n : Nat) (rest : List Rendition) (r0 : Rendition)
    (h : ∀ r ∈ r0 :: rest, r.Bitrate.all isDigit = true ∧ r.Bitrate.length = n) :
    rest.foldl (fun best r => if strGt r.Bitrate best.Bitrate then r else best) r0 =
      numericBest r0 rest := by
  unfold numericBest
  induction rest generalizing r0 with
  | nil => rfl
  | cons x xs ih =>
    have h0 := h r0 (List.mem_cons_self _ _)
    have hx := h x (List.mem_cons_of_mem _ (List.mem_cons_self _ _))
    simp only [List.foldl_cons]
    rw [strGt_eq_decVal_lt x.Bitrate r0.Bitrate hx.1 h0.1 (hx.2.trans h0.2.symm)]
    by_cases hlt : decVal r0.Bitrate < decVal x.Bitrate
    · simp only [hlt, decide_True, if_true]
      apply ih
      intro r hr
      exact h r (List.mem_cons_of_mem _ hr)
    · simp only [hlt, decide_False, if_false]
      apply ih
      intro r hr
      rcases List.mem_cons.mp hr with hr | hr
      · rw [hr]; exact h0
      · exact h r (List.mem_cons_of_mem _ (List.mem_cons_of_mem _ hr))

/-- C10. The loop of `extractBestQualityStream` compares the raw bitrate
strings.  When all bitrate strings are decimal-digit strings of one length, it
selects the same rendition as the selection by numeric bitrate, which is the
first rendition of maximum numeric bitrate; and there is a sequence of
decimal-digit bitrates of different widths on which the two selections differ. -/
theorem bestRendition_raw_vs_numeric :
    (∀ (r0 : Rendition) (rest : List Rendition),
      (∀ r ∈ r0 :: rest, r.Bitrate.all isDigit = true ∧
        r.Bitrate.length = r0.Bitrate.length) →
      bestRendition r0 (r0 :: rest) = numericBest r0 rest ∧
      ∃ i : Nat, (r0 :: rest)[i]? = some (bestRendition r0 (r0 :: rest)) ∧
        (∀ (j : Nat) (r : Rendition), (r0 :: rest)[j]? = some r →
          decVal r.Bitrate ≤ decVal (bestRendition r0 (r0 :: rest)).Bitrate) ∧
        (∀ (j : Nat) (r : Rendition), j < i → (r0 :: rest)[j]? = some r →
          decVal r.Bitrate < decVal (bestRendition r0 (r0 :: rest)).Bitrate)) ∧
    (∃ (r0 : Rendition) (rest : List Rendition),
      (∀ r ∈ r0 :: rest, r.Bitrate.all isDigit = true) ∧
      (∃ r ∈ rest, r.Bitrate.length ≠ r0.Bitrate.length) ∧
      bestRendition r0 (r0 :: rest) ≠ numericBest r0 rest) := by
  constructor
  · intro r0 rest h
    have heq : bestRendition r0 (r0 :: rest) = numericBest r0 rest := by
      rw [bestRendition_eq_foldl]
      exact foldl_raw_eq_numeric r0.Bitrate.length rest r0 h
    refine ⟨heq, ?_⟩
    rw [heq]
    exact numericBest_first_max r0 rest
  · refine ⟨mkRendition "800".toList "http://x/low.flv".toList,
      [mkRendition "2000".toList "http://x/high.flv".toList], ?_, ?_, ?_⟩
    · decide
    · exact ⟨_, List.mem_singleton_self _, by decide⟩
    · decide

/-- C10, on the equal-width bitrates 0800 and 2000: the raw selection is the
numeric one. -/
theorem bestRendition_raw_vs_numeric_witness :
    (∀ r ∈ [mkRendition "0800".toList [], mkRendition "2000".toList []],
      r.Bitrate.all isDigit = true ∧
        r.Bitrate.length = (mkRendition "0800".toList []).Bitrate.length) ∧
    bestRendition (mkRendition "0800".toList [])
        [mkRendition "0800".toList [], mkRendition "2000".toList []] =
      numericBest (mkRendition "0800".toList []) [mkRendition "2000".toList []] :=
  ⟨by decide, (bestRendition_raw_vs_numeric.1 (mkRendition "0800".toList [])
      [mkRendition "2000".toList []] (by decide)).1⟩

/-- Once the manifest is fetched and decoded, `extractBestQualityStream` returns
what the selection over the decoded renditions returns. -/
theorem extractBestQualityStream_decoded {σ : Type} (W : World σ) (D : Decoders)
    (playlist : Playlist) (w w1 : σ) (page : Str) (fx : List Effect) (streams : PlaylistStreams)
    (hurl : playlist.Channel.Item.Group.Content.URL ≠ [])
    (hfetch : fetchPage W playlist.Channel.Item.Group.Content.URL w = ((page, none), fx, w1))
    (hdec : D.unmarshalStreams page = .ok streams) :
    extractBestQualityStream W D playlist w = (selectStream streams, fx, w1) := by
  unfold extractBestQualityStream
  dsimp only
  rw [if_neg hurl, hfetch]
  dsimp only
  rw [hdec]

/-- C5. For a decoded manifest: with zero renditions `extractBestQualityStream`
fails with the "no renditions" error, which differs from the "empty source URL"
error; the "empty source URL" error is returned exactly when there is at least
one rendition and the selected rendition's source URL is empty; and with at
least one rendition and a non-empty selected source URL the call succeeds with
that URL. -/
theorem extractBestQualityStream_errors {σ : Type} (W : World σ) (D : Decoders)
    (playlist : Playlist) (w w1 : σ) (page : Str) (fx : List Effect) (streams : PlaylistStreams)
    (hurl : playlist.Channel.Item.Group.Content.URL ≠ [])
    (hfetch : fetchPage W playlist.Channel.Item.Group.Content.URL w = ((page, none), fx, w1))
    (hdec : D.unmarshalStreams page = .ok streams) :
    errNoRenditions ≠ errEmptySrc ∧
    (streams.Rendition = [] →
      (extractBestQualityStream W D playlist w).1 = ([], some errNoRenditions)) ∧
    ((extractBestQualityStream W D playlist w).1.2 = some errEmptySrc ↔
      ∃ r0 rest, streams.Rendition = r0 :: rest ∧ (bestRendition r0 (r0 :: rest)).Src = []) ∧
    (∀ r0 rest, streams.Rendition = r0 :: rest → (bestRendition r0 (r0 :: rest)).Src ≠ [] →
      (extractBestQualityStream W D playlist w).1 =
        ((bestRendition r0 (r0 :: rest)).Src, none)) := by
  rw [extractBestQualityStream_decoded W D playlist w w1 page fx streams hurl hfetch hdec]
  have hne : errNoRenditions ≠ errEmptySrc := by decide
  refine ⟨hne, ?_, ?_, ?_⟩
  · intro h
    unfold selectStream
    rw [h]
    rfl
  · unfold selectStream
    cases hr : streams.Rendition with
    | nil =>
      dsimp only
      constructor
      · intro h
        exact absurd (Option.some.inj h) hne
      · rintro ⟨r0, rest, h, _⟩
        exact List.noConfusion h
    | cons r0 rest =>
      dsimp only
      by_cases hs : (bestRendition r0 (r0 :: rest)).Src = []
      · rw [if_pos hs]
        exact ⟨fun _ => ⟨r0, rest, rfl, hs⟩, fun _ => rfl⟩
      · rw [if_neg hs]
        constructor
        · intro h
          exact Option.noConfusion h
        · rintro ⟨a, b, h, hsrc⟩
          injection h with h1 h2
          subst h1 h2
          exact absurd hsrc hs
  · intro r0 rest hr hs
    unfold selectStream
    rw [hr]
    dsimp only
    rw [if_neg hs]

/-- C5, on the manifest of the end-to-end example in `diskWorld`. -/
theorem extractBestQualityStream_errors_witness :
    (playlistWithUrl "http://x/manifest".toList).Channel.Item.Group.Content.URL ≠ [] ∧
    fetchPage diskWorld (playlistWithUrl "http://x/manifest".toList).Channel.Item.Group.Content.URL []
      = (("http://x/manifest".toList, none), [Effect.httpGet "http://x/manifest".toList], []) ∧
    ((extractBestQualityStream diskWorld (fixedDecoders [] [] pilotRenditions)
        (playlistWithUrl "http://x/manifest".toList) []).1.2 = some errEmptySrc ↔
      ∃ r0 rest, (manifestOf pilotRenditions).Rendition = r0 :: rest ∧
        (bestRendition r0 (r0 :: rest)).Src = []) :=
  ⟨by decide, by decide,
    (extractBestQualityStream_errors diskWorld (fixedDecoders [] [] pilotRenditions)
      (playlistWithUrl "http://x/manifest".toList) [] [] "http://x/manifest".toList
      [Effect.httpGet "http://x/manifest".toList] (manifestOf pilotRenditions)
      (by decide) (by decide) rfl).2.2.1⟩

/-- C1, the code at the specification's own examples: with bitrates 800 and 2000
`extractBestQualityStream` returns the source of the 800 rendition, because the
string "2000" is not greater than the string "800"; with bitrates 500, 1200,
1200, 900 the loop selects the rendition at index 3 (bitrate 900). -/
theorem extractBestQualityStream_compares_strings :
    (extractBestQualityStream diskWorld (fixedDecoders [] [] pilotRenditions)
        (playlistWithUrl "http://x/manifest".toList) []).1 = ("http://x/low.flv".toList, none) ∧
    strGt "2000".toList "800".toList = false ∧
    bestRendition (mkRendition "500".toList "r0".toList)
        [mkRendition "500".toList "r0".toList, mkRendition "1200".toList "r1".toList,
         mkRendition "1200".toList "r2".toList, mkRendition "900".toList "r3".toList] =
      mkRendition "900".toList "r3".toList := by
  refine ⟨by decide, by decide, by decide⟩

/-! ## The orchestrator -/

theorem fetchPage_effects {σ : Type} (W : World σ) (url : Str) (w : σ) :
    (fetchPage W url w).2.1 = [Effect.httpGet url] := by
  unfold fetchPage
  split
  · rfl
  · split
    · rfl
    · split <;> rfl

theorem fetchPage_effects_of_eq {σ : Type} {W : World σ} {url : Str} {w w1 : σ}
    {r : Str × Option Str} {fx : List Effect} (h : fetchPage W url w = (r, fx, w1)) :
    fx = [Effect.httpGet url] := by
  have := fetchPage_effects W url w
  rw [h] at this
  exact this

theorem extractPlaylist_noStart {σ : Type} (W : World σ) (D : Decoders) (contents : Str)
    (w : σ) : (extractPlaylist W D contents w).2.1.filter startsEpisode = [] := by
  unfold extractPlaylist
  split
  · rfl
  · dsimp only
    split
    · rfl
    · split
      · rename_i h
        rw [fetchPage_effects_of_eq h]
        rfl
      · rename_i h
        rw [fetchPage_effects_of_eq h]
        split <;> rfl

theorem extractBestQualityStream_noStart {σ : Type} (W : World σ) (D : Decoders)
    (playlist : Playlist) (w : σ) :
    (extractBestQualityStream W D playlist w).2.1.filter startsEpisode = [] := by
  unfold extractBestQualityStream
  dsimp only
  split
  · rfl
  · split
    · rename_i h
      rw [fetchPage_effects_of_eq h]
      rfl
    · rename_i h
      rw [fetchPage_effects_of_eq h]
      split <;> rfl

theorem ScrapeRTMP_noStart {σ : Type} (W : World σ) (rtmpPath rtmpUrl dest : Str) (w : σ) :
    (ScrapeRTMP W rtmpPath rtmpUrl dest w).2.1.filter startsEpisode = [] := by
  unfold ScrapeRTMP
  split
  · rfl
  · dsimp only
    split
    · rfl
    · split <;> rfl

theorem extractPlaylist_noStart_of_eq {σ : Type} {W : World σ} {D : Decoders} {contents : Str}
    {w w1 : σ} {r : Playlist × Option Str} {fx : List Effect}
    (h : extractPlaylist W D contents w = (r, fx, w1)) : fx.filter startsEpisode = [] := by
  have := extractPlaylist_noStart W D contents w
  rw [h] at this
  exact this

theorem extractBestQualityStream_noStart_of_eq {σ : Type} {W : World σ} {D : Decoders}
    {playlist : Playlist} {w w1 : σ} {r : Str × Option Str} {fx : List Effect}
    (h : extractBestQualityStream W D playlist w = (r, fx, w1)) :
    fx.filter startsEpisode = [] := by
  have := extractBestQualityStream_noStart W D playlist w
  rw [h] at this
  exact this

theorem ScrapeRTMP_noStart_of_eq {σ : Type} {W : World σ} {rtmpPath rtmpUrl dest : Str}
    {w w1 : σ} {r : Option Str} {fx : List Effect}
    (h : ScrapeRTMP W rtmpPath rtmpUrl dest w = (r, fx, w1)) : fx.filter startsEpisode = [] := by
  have := ScrapeRTMP_noStart W rtmpPath rtmpUrl dest w
  rw [h] at this
  exact this

/-- One iteration of the loop emits exactly one opening line: its own. -/
theorem processEpisode_starts_once {σ : Type} (W : World σ) (D : Decoders)
    (mediaPath rtmpPath : Str) (epi : Episode) (w : σ) :
    (processEpisode W D mediaPath rtmpPath epi w).1.filter startsEpisode = [startLine epi] := by
  unfold processEpisode
  dsimp only
  split
  · rename_i h
    rw [fetchPage_effects_of_eq h]
    simp [List.filter_cons, startsEpisode, startLine, List.isPrefixOf]
  · rename_i h
    rw [fetchPage_effects_of_eq h]
    split
    · simp [List.filter_cons, startsEpisode, startLine, List.isPrefixOf]
    · split
      · simp [List.filter_cons, startsEpisode, startLine, List.isPrefixOf]
      · split
        · rename_i hp
          have h3 := extractPlaylist_noStart_of_eq hp
          simp [List.filter_cons, startsEpisode, startLine, List.isPrefixOf, h3]
        · rename_i hp
          have h3 := extractPlaylist_noStart_of_eq hp
          split
          · rename_i hb
            have h4 := extractBestQualityStream_noStart_of_eq hb
            simp [List.filter_cons, startsEpisode, startLine, List.isPrefixOf, h3, h4]
          · rename_i hb
            have h4 := extractBestQualityStream_noStart_of_eq hb
            split
            · rename_i hs
              have h5 := ScrapeRTMP_noStart_of_eq hs
              simp [List.filter_cons, startsEpisode, startLine, List.isPrefixOf, h3, h4, h5]
            · rename_i hs
              have h5 := ScrapeRTMP_noStart_of_eq hs
              simp [List.filter_cons, startsEpisode, startLine, List.isPrefixOf, h3, h4, h5]

/-- The opening line of an iteration is followed by the request for the
episode page. -/
theorem processEpisode_begins {σ : Type} (W : World σ) (D : Decoders)
    (mediaPath rtmpPath : Str) (epi : Episode) (w : σ) :
    ∃ more, (processEpisode W D mediaPath rtmpPath epi w).1 =
      startLine epi :: Effect.httpGet epi.Url :: more := by
  unfold processEpisode
  dsimp only
  split
  · rename_i h
    rw [fetchPage_effects_of_eq h]
    exact ⟨_, rfl⟩
  · rename_i h
    rw [fetchPage_effects_of_eq h]
    split
    · exact ⟨_, rfl⟩
    · split
      · exact ⟨_, rfl⟩
      · split
        · exact ⟨_, by simp [startLine]; rfl⟩
        · split
          · exact ⟨_, by simp [startLine]; rfl⟩
          · split
            · exact ⟨_, by simp [startLine]; rfl⟩
            · exact ⟨_, by simp [startLine]; rfl⟩

theorem mainLoop_cons {σ : Type} (W : World σ) (D : Decoders) (mediaPath rtmpPath : Str)
    (epi : Episode) (rest : List Episode) (w : σ) :
    mainLoop W D mediaPath rtmpPath (epi :: rest) w =
      ((processEpisode W D mediaPath rtmpPath epi w).1 ++
         (mainLoop W D mediaPath rtmpPath rest
            (processEpisode W D mediaPath rtmpPath epi w).2).1,
       (mainLoop W D mediaPath rtmpPath rest
            (processEpisode W D mediaPath rtmpPath epi w).2).2) := rfl

theorem mainLoop_append {σ : Type} (W : World σ) (D : Decoders) (mediaPath rtmpPath : Str)
    (pre post : List Episode) (w : σ) :
    mainLoop W D mediaPath rtmpPath (pre ++ post) w =
      ((mainLoop W D mediaPath rtmpPath pre w).1 ++
         (mainLoop W D mediaPath rtmpPath post (mainLoop W D mediaPath rtmpPath pre w).2).1,
       (mainLoop W D mediaPath rtmpPath post (mainLoop W D mediaPath rtmpPath pre w).2).2) := by
  induction pre generalizing w with
  | nil => rfl
  | cons e pre ih =>
    rw [List.cons_append, mainLoop_cons, mainLoop_cons, ih]
    simp

/-- C7. When the episode page is fetched, its numbering is extracted and the
computed destination path already exists, the iteration for that episode is
exactly: the opening log line, the request for the episode page, the log of the
destination, the `os.Stat` of the destination and the log "file already exists".
No playlist or manifest is requested and the recorder is not started; the loop
goes on with the next episode from the world left by `os.Stat`. -/
theorem processEpisode_skips_existing {σ : Type} (W : World σ) (D : Decoders)
    (mediaPath rtmpPath : Str) (epi : Episode) (rest : List Episode) (w w1 w2 : σ)
    (page : Str) (fx1 : List Effect) (season episode : Int)
    (hfetch : fetchPage W epi.Url w = ((page, none), fx1, w1))
    (hnum : extractEpisodeNumbering D page = (season, episode, none))
    (hstat : W.stat (destPath mediaPath epi.Show epi.Title season episode) w1 =
      (StatResult.found, w2)) :
    processEpisode W D mediaPath rtmpPath epi w =
      ([startLine epi, Effect.httpGet epi.Url,
        Effect.log ("will be saved to ".toList ++
          destPath mediaPath epi.Show epi.Title season episode),
        Effect.stat (destPath mediaPath epi.Show epi.Title season episode),
        Effect.log "file already exists".toList], w2) ∧
    mainLoop W D mediaPath rtmpPath (epi :: rest) w =
      ([startLine epi, Effect.httpGet epi.Url,
        Effect.log ("will be saved to ".toList ++
          destPath mediaPath epi.Show epi.Title season episode),
        Effect.stat (destPath mediaPath epi.Show epi.Title season episode),
        Effect.log "file already exists".toList] ++
          (mainLoop W D mediaPath rtmpPath rest w2).1,
       (mainLoop W D mediaPath rtmpPath rest w2).2) := by
  have hfx := fetchPage_effects_of_eq hfetch
  have h1 : processEpisode W D mediaPath rtmpPath epi w =
      ([startLine epi, Effect.httpGet epi.Url,
        Effect.log ("will be saved to ".toList ++
          destPath mediaPath epi.Show epi.Title season episode),
        Effect.stat (destPath mediaPath epi.Show epi.Title season episode),
        Effect.log "file already exists".toList], w2) := by
    unfold processEpisode
    simp only [hfetch, hnum, hstat, hfx]
    simp [startLine]
  refine ⟨h1, ?_⟩
  rw [mainLoop_cons, h1]

/-- C7, in `diskWorld` with the destination of the pilot episode on disk: the
iteration stops after `os.Stat`. -/
theorem processEpisode_skips_existing_witness :
    fetchPage diskWorld "http://x/pilot".toList ["/root/ShowX/ShowX - Pilot - S01E03.mp4".toList] =
      (("http://x/pilot".toList, none), [Effect.httpGet "http://x/pilot".toList],
        ["/root/ShowX/ShowX - Pilot - S01E03.mp4".toList]) ∧
    processEpisode diskWorld (fixedDecoders [] " Seizoen 1, Aflevering 3 ".toList pilotRenditions)
        "/root".toList "/usr/local/bin/rtmpdump".toList (episodeOf pilotNode)
        ["/root/ShowX/ShowX - Pilot - S01E03.mp4".toList] =
      ([startLine (episodeOf pilotNode), Effect.httpGet "http://x/pilot".toList,
        Effect.log "will be saved to /root/ShowX/ShowX - Pilot - S01E03.mp4".toList,
        Effect.stat "/root/ShowX/ShowX - Pilot - S01E03.mp4".toList,
        Effect.log "file already exists".toList],
       ["/root/ShowX/ShowX - Pilot - S01E03.mp4".toList]) :=
  ⟨by decide,
   (processEpisode_skips_existing diskWorld
      (fixedDecoders [] " Seizoen 1, Aflevering 3 ".toList pilotRenditions)
      "/root".toList "/usr/local/bin/rtmpdump".toList (episodeOf pilotNode) []
      ["/root/ShowX/ShowX - Pilot - S01E03.mp4".toList]
      ["/root/ShowX/ShowX - Pilot - S01E03.mp4".toList]
      ["/root/ShowX/ShowX - Pilot - S01E03.mp4".toList]
      "http://x/pilot".toList [Effect.httpGet "http://x/pilot".toList] 1 3
      (by decide) (by decide) (by decide)).1⟩

theorem extractPlaylist_only_requests {σ : Type} (W : World σ) (D : Decoders) (contents : Str)
    (w : σ) : ∀ e ∈ (extractPlaylist W D contents w).2.1, ∃ u, e = Effect.httpGet u := by
  unfold extractPlaylist
  split
  · intro e he; exact absurd he (List.not_mem_nil e)
  · dsimp only
    split
    · intro e he; exact absurd he (List.not_mem_nil e)
    · split
      · rename_i h
        rw [fetchPage_effects_of_eq h]
        intro e he
        exact ⟨_, List.mem_singleton.mp he⟩
      · rename_i h
        rw [fetchPage_effects_of_eq h]
        split <;> (intro e he; exact ⟨_, List.mem_singleton.mp he⟩)

theorem extractBestQualityStream_only_requests {σ : Type} (W : World σ) (D : Decoders)
    (playlist : Playlist) (w : σ) :
    ∀ e ∈ (extractBestQualityStream W D playlist w).2.1, ∃ u, e = Effect.httpGet u := by
  unfold extractBestQualityStream
  dsimp only
  split
  · intro e he; exact absurd he (List.not_mem_nil e)
  · split
    · rename_i h
      rw [fetchPage_effects_of_eq h]
      intro e he
      exact ⟨_, List.mem_singleton.mp he⟩
    · rename_i h
      rw [fetchPage_effects_of_eq h]
      split <;> (intro e he; exact ⟨_, List.mem_singleton.mp he⟩)

/-- C8. Whatever the world and the decoders answer: (1) the loop over the
episodes opens one iteration per episode reference, in list order, each exactly
once; (2) for every episode of the list, the run is the run over the episodes
before it, then that episode's iteration, then the complete run over all later
episodes; (3)-(7) a failure of the page fetch, of the numbering extraction, of
the playlist resolution, of the stream selection or of the capture ends the
iteration right there: its effects are those up to and including the failed
stage, followed by the error log line, and nothing of a later stage; (8) when
every stage succeeds the iteration runs to the capture; (9) the two resolution
stages perform nothing but requests. -/
theorem mainLoop_isolates_failures {σ : Type} (W : World σ) (D : Decoders)
    (mediaPath rtmpPath : Str) :
    (∀ (eps : List Episode) (w : σ),
      (mainLoop W D mediaPath rtmpPath eps w).1.filter startsEpisode = eps.map startLine) ∧
    (∀ (pre : List Episode) (epi : Episode) (post : List Episode) (w : σ),
      mainLoop W D mediaPath rtmpPath (pre ++ epi :: post) w =
        ((mainLoop W D mediaPath rtmpPath pre w).1 ++
          (processEpisode W D mediaPath rtmpPath epi
            (mainLoop W D mediaPath rtmpPath pre w).2).1 ++
          (mainLoop W D mediaPath rtmpPath post
            (processEpisode W D mediaPath rtmpPath epi
              (mainLoop W D mediaPath rtmpPath pre w).2).2).1,
         (mainLoop W D mediaPath rtmpPath post
            (processEpisode W D mediaPath rtmpPath epi
              (mainLoop W D mediaPath rtmpPath pre w).2).2).2) ∧
      ∃ more, (processEpisode W D mediaPath rtmpPath epi
            (mainLoop W D mediaPath rtmpPath pre w).2).1 =
          startLine epi :: Effect.httpGet epi.Url :: more) ∧
    (∀ (epi : Episode) (w w1 : σ) (r err : Str) (fx1 : List Effect),
      fetchPage W epi.Url w = ((r, some err), fx1, w1) →
      processEpisode W D mediaPath rtmpPath epi w =
        ([startLine epi, Effect.httpGet epi.Url,
          Effect.log ("error: could not fetch episode page: ".toList ++ err)], w1)) ∧
    (∀ (epi : Episode) (w w1 : σ) (page err : Str) (fx1 : List Effect) (s e : Int),
      fetchPage W epi.Url w = ((page, none), fx1, w1) →
      extractEpisodeNumbering D page = (s, e, some err) →
      processEpisode W D mediaPath rtmpPath epi w =
        ([startLine epi, Effect.httpGet epi.Url,
          Effect.log ("error: could not extract episode numbering: ".toList ++ err)], w1)) ∧
    (∀ (epi : Episode) (w w1 w2 w3 : σ) (page err : Str) (fx1 fx3 : List Effect)
        (season episode : Int) (p : Playlist),
      fetchPage W epi.Url w = ((page, none), fx1, w1) →
      extractEpisodeNumbering D page = (season, episode, none) →
      W.stat (destPath mediaPath epi.Show epi.Title season episode) w1 =
        (StatResult.notExist, w2) →
      extractPlaylist W D page w2 = ((p, some err), fx3, w3) →
      processEpisode W D mediaPath rtmpPath epi w =
        ([startLine epi, Effect.httpGet epi.Url,
          Effect.log ("will be saved to ".toList ++
            destPath mediaPath epi.Show epi.Title season episode),
          Effect.stat (destPath mediaPath epi.Show epi.Title season episode)] ++ fx3 ++
          [Effect.log ("error: could not extract playlist: ".toList ++ err)], w3)) ∧
    (∀ (epi : Episode) (w w1 w2 w3 w4 : σ) (page u err : Str) (fx1 fx3 fx4 : List Effect)
        (season episode : Int) (playlist : Playlist),
      fetchPage W epi.Url w = ((page, none), fx1, w1) →
      extractEpisodeNumbering D page = (season, episode, none) →
      W.stat (destPath mediaPath epi.Show epi.Title season episode) w1 =
        (StatResult.notExist, w2) →
      extractPlaylist W D page w2 = ((playlist, none), fx3, w3) →
      extractBestQualityStream W D playlist w3 = ((u, some err), fx4, w4) →
      processEpisode W D mediaPath rtmpPath epi w =
        ([startLine epi, Effect.httpGet epi.Url,
          Effect.log ("will be saved to ".toList ++
            destPath mediaPath epi.Show epi.Title season episode),
          Effect.stat (destPath mediaPath epi.Show epi.Title season episode)] ++ fx3 ++ fx4 ++
          [Effect.log ("error: could not extract best stream: ".toList ++ err)], w4)) ∧
    (∀ (epi : Episode) (w w1 w2 w3 w4 w5 : σ) (page streamUrl err : Str)
        (fx1 fx3 fx4 fx6 : List Effect) (season episode : Int) (playlist : Playlist),
      fetchPage W epi.Url w = ((page, none), fx1, w1) →
      extractEpisodeNumbering D page = (season, episode, none) →
      W.stat (destPath mediaPath epi.Show epi.Title season episode) w1 =
        (StatResult.notExist, w2) →
      extractPlaylist W D page w2 = ((playlist, none), fx3, w3) →
      extractBestQualityStream W D playlist w3 = ((streamUrl, none), fx4, w4) →
      ScrapeRTMP W rtmpPath streamUrl (destPath mediaPath epi.Show epi.Title season episode) w4 =
        (some err, fx6, w5) →
      processEpisode W D mediaPath rtmpPath epi w =
        ([startLine epi, Effect.httpGet epi.Url,
          Effect.log ("will be saved to ".toList ++
            destPath mediaPath epi.Show epi.Title season episode),
          Effect.stat (destPath mediaPath epi.Show epi.Title season episode)] ++ fx3 ++ fx4 ++
          [Effect.log ("best stream: ".toList ++ streamUrl)] ++ fx6 ++
          [Effect.log ("could not scrape rtmp to ".toList ++
            destPath mediaPath epi.Show epi.Title season episode ++ ": ".toList ++ err)], w5)) ∧
    (∀ (epi : Episode) (w w1 w2 w3 w4 w5 : σ) (page streamUrl : Str)
        (fx1 fx3 fx4 fx6 : List Effect) (season episode : Int) (playlist : Playlist),
      fetchPage W epi.Url w = ((page, none), fx1, w1) →
      extractEpisodeNumbering D page = (season, episode, none) →
      W.stat (destPath mediaPath epi.Show epi.Title season episode) w1 =
        (StatResult.notExist, w2) →
      extractPlaylist W D page w2 = ((playlist, none), fx3, w3) →
      extractBestQualityStream W D playlist w3 = ((streamUrl, none), fx4, w4) →
      ScrapeRTMP W rtmpPath streamUrl (destPath mediaPath epi.Show epi.Title season episode) w4 =
        (none, fx6, w5) →
      processEpisode W D mediaPath rtmpPath epi w =
        ([startLine epi, Effect.httpGet epi.Url,
          Effect.log ("will be saved to ".toList ++
            destPath mediaPath epi.Show epi.Title season episode),
          Effect.stat (destPath mediaPath epi.Show epi.Title season episode)] ++ fx3 ++ fx4 ++
          [Effect.log ("best stream: ".toList ++ streamUrl)] ++ fx6, w5)) ∧
    ((∀ (contents : Str) (w : σ), ∀ e ∈ (extractPlaylist W D contents w).2.1,
        ∃ u, e = Effect.httpGet u) ∧
     (∀ (playlist : Playlist) (w : σ), ∀ e ∈ (extractBestQualityStream W D playlist w).2.1,
        ∃ u, e = Effect.httpGet u)) := by
  refine ⟨?_, ?_, ?_, ?_, ?_, ?_, ?_, ?_, ?_⟩
  · intro eps
    induction eps with
    | nil => intro w; rfl
    | cons e rest ih =>
      intro w
      rw [mainLoop_cons]
      dsimp only
      rw [List.filter_append, processEpisode_starts_once, ih, List.map_cons]
      rfl
  · intro pre epi post w
    refine ⟨?_, processEpisode_begins W D mediaPath rtmpPath epi _⟩
    rw [mainLoop_append, mainLoop_cons]
    simp
  · intro epi w w1 r err fx1 hfetch
    have hfx := fetchPage_effects_of_eq hfetch
    unfold processEpisode
    simp only [hfetch, hfx]
    simp [startLine]
  · intro epi w w1 page err fx1 s e hfetch hnum
    have hfx := fetchPage_effects_of_eq hfetch
    unfold processEpisode
    simp only [hfetch, hnum, hfx]
    simp [startLine]
  · intro epi w w1 w2 w3 page err fx1 fx3 season episode p hfetch hnum hstat hpl
    have hfx := fetchPage_effects_of_eq hfetch
    unfold processEpisode
    simp only [hfetch, hnum, hstat, hpl, hfx]
    simp [startLine]
  · intro epi w w1 w2 w3 w4 page u err fx1 fx3 fx4 season episode playlist hfetch hnum hstat
      hpl hbs
    have hfx := fetchPage_effects_of_eq hfetch
    unfold processEpisode
    simp only [hfetch, hnum, hstat, hpl, hbs, hfx]
    simp [startLine]
  · intro epi w w1 w2 w3 w4 w5 page streamUrl err fx1 fx3 fx4 fx6 season episode playlist
      hfetch hnum hstat hpl hbs hsc
    have hfx := fetchPage_effects_of_eq hfetch
    unfold processEpisode
    simp only [hfetch, hnum, hstat, hpl, hbs, hsc, hfx]
    simp [startLine]
  · intro epi w w1 w2 w3 w4 w5 page streamUrl fx1 fx3 fx4 fx6 season episode playlist
      hfetch hnum hstat hpl hbs hsc
    have hfx := fetchPage_effects_of_eq hfetch
    unfold processEpisode
    simp only [hfetch, hnum, hstat, hpl, hbs, hsc, hfx]
    simp [startLine]
  · exact ⟨extractPlaylist_only_requests W D, extractBestQualityStream_only_requests W D⟩

/-- C8, in `flakyWorld`: the page of the first episode cannot be fetched; its
iteration ends with the error line, and the run over the list goes on to record
the pilot episode. -/
theorem mainLoop_isolates_failures_witness :
    fetchPage flakyWorld downEpisode.Url [] =
      (([], some "could not fetch http://x/down : timeout".toList),
        [Effect.httpGet "http://x/down".toList], []) ∧
    processEpisode flakyWorld
        (fixedDecoders [] "Seizoen 1, Aflevering 3".toList pilotRenditions)
        "/root".toList "/usr/local/bin/rtmpdump".toList downEpisode [] =
      ([startLine downEpisode, Effect.httpGet "http://x/down".toList,
        Effect.log ("error: could not fetch episode page: ".toList ++
          "could not fetch http://x/down : timeout".toList)], []) ∧
    (mainLoop flakyWorld (fixedDecoders [] "Seizoen 1, Aflevering 3".toList pilotRenditions)
        "/root".toList "/usr/local/bin/rtmpdump".toList
        [downEpisode, episodeOf pilotNode] []).2 =
      ["/root/ShowX/ShowX - Pilot - S01E03.mp4".toList] :=
  ⟨by decide,
   (mainLoop_isolates_failures flakyWorld
      (fixedDecoders [] "Seizoen 1, Aflevering 3".toList pilotRenditions)
      "/root".toList "/usr/local/bin/rtmpdump".toList).2.2.1 downEpisode [] [] []
      "could not fetch http://x/down : timeout".toList
      [Effect.httpGet "http://x/down".toList] (by decide),
   by decide⟩

/-! ## The destination path -/

theorem splitPath_ne_nil (s : Str) : splitPath s ≠ [] := by
  cases s with
  | nil => simp [splitPath]
  | cons c cs =>
    unfold splitPath
    split
    · simp
    · split <;> simp

theorem splitPath_cons_slash (cs : Str) : splitPath ('/' :: cs) = [] :: splitPath cs := by
  rw [splitPath, if_pos rfl]

theorem splitPath_cons_ne (c : Char) (cs : Str) (hc : c ≠ '/') :
    splitPath (c :: cs) = (c :: (splitPath cs).headD []) :: (splitPath cs).tail := by
  rw [splitPath, if_neg hc]
  cases hs : splitPath cs with
  | nil => exact absurd hs (splitPath_ne_nil cs)
  | cons h t => rfl

theorem splitPath_append_slash (a b : Str) :
    splitPath (a ++ '/' :: b) = splitPath a ++ splitPath b := by
  induction a with
  | nil => rw [List.nil_append, splitPath_cons_slash]; rfl
  | cons c cs ih =>
    rw [List.cons_append]
    by_cases hc : c = '/'
    · rw [hc, splitPath_cons_slash, splitPath_cons_slash, ih]
      rfl
    · rw [splitPath_cons_ne c _ hc, splitPath_cons_ne c _ hc, ih]
      cases hs : splitPath cs with
      | nil => exact absurd hs (splitPath_ne_nil cs)
      | cons h t => rfl

theorem splitPath_of_no_slash (s : Str) (h : '/' ∉ s) : splitPath s = [s] := by
  induction s with
  | nil => rfl
  | cons c cs ih =>
    have hc : c ≠ '/' := fun e => h (e ▸ List.mem_cons_self _ _)
    have hcs : '/' ∉ cs := fun e => h (List.mem_cons_of_mem _ e)
    rw [splitPath_cons_ne c cs hc, ih hcs]
    rfl

theorem joinSlash_snoc (xs : List Str) (a : Str) (h : xs ≠ []) :
    joinSlash (xs ++ [a]) = joinSlash xs ++ '/' :: a := by
  induction xs with
  | nil => exact absurd rfl h
  | cons x rest ih =>
    cases rest with
    | nil => simp [joinSlash]
    | cons y ys =>
      have := ih (List.cons_ne_nil y ys)
      simp only [List.cons_append] at this ⊢
      simp only [joinSlash, this, List.append_assoc, List.cons_append]

theorem isRooted_append (p q : Str) (h : p ≠ []) : isRooted (p ++ q) = isRooted p := by
  cases p with
  | nil => exact absurd rfl h
  | cons c cs => rfl

/-- An element that `filepath.Clean` keeps as it is. -/
theorem cleanStep_plain (rooted : Bool) (kept : List Str) (e : Str)
    (h0 : e ≠ []) (h1 : e ≠ ['.']) (h2 : e ≠ ['.', '.']) :
    cleanStep rooted kept e = e :: kept := by
  unfold cleanStep
  rw [if_neg (by rintro (h | h) <;> contradiction), if_neg h2]

theorem cleanStep_empty (rooted : Bool) (kept : List Str) : cleanStep rooted kept [] = kept := by
  unfold cleanStep
  rw [if_pos (Or.inl rfl)]

/-- Cleaning `p/show//file` when `show` and `file` are plain names: the
elements kept for `p`, then `show`, then `file`. -/
theorem keptElems_join (p showName file : Str) (hp : p ≠ [])
    (hs0 : showName ≠ []) (hs1 : showName ≠ ['.']) (hs2 : showName ≠ ['.', '.'])
    (hs3 : '/' ∉ showName)
    (hf0 : file ≠ []) (hf1 : file ≠ ['.']) (hf2 : file ≠ ['.', '.']) (hf3 : '/' ∉ file) :
    keptElems (joinSlash [p, showName ++ ['/'], file]) = keptElems p ++ [showName, file] := by
  have hjoin : joinSlash [p, showName ++ ['/'], file] =
      p ++ '/' :: (showName ++ '/' :: '/' :: file) := by
    simp [joinSlash]
  rw [hjoin]
  unfold keptElems
  rw [isRooted_append p _ hp, splitPath_append_slash, splitPath_append_slash,
    splitPath_of_no_slash showName hs3]
  have h3 : splitPath ('/' :: file) = [[], file] := by
    rw [splitPath_cons_slash, splitPath_of_no_slash file hf3]
  rw [h3, List.foldl_append]
  simp only [List.foldl_cons, List.foldl_nil, List.singleton_append]
  rw [cleanStep_plain _ _ showName hs0 hs1 hs2, cleanStep_empty,
    cleanStep_plain _ _ file hf0 hf1 hf2]
  simp

/-- Joining a clean root, a plain show name and a plain file name changes
nothing but the doubled separator. -/
theorem Join_clean_root (p showName file : Str)
    (hclean : Clean p = p) (hroot : p ≠ ['/']) (hdot : p ≠ ['.'])
    (hs0 : showName ≠ []) (hs1 : showName ≠ ['.']) (hs2 : showName ≠ ['.', '.'])
    (hs3 : '/' ∉ showName)
    (hf0 : file ≠ []) (hf1 : file ≠ ['.']) (hf2 : file ≠ ['.', '.']) (hf3 : '/' ∉ file) :
    Join [p, showName ++ ['/'], file] = p ++ '/' :: showName ++ '/' :: file := by
  have hp : p ≠ [] := by
    intro h
    rw [h] at hclean
    exact absurd hclean (by decide)
  have hj : Join [p, showName ++ ['/'], file] = Clean (joinSlash [p, showName ++ ['/'], file]) := by
    unfold Join
    rw [if_neg hp]
  rw [hj]
  unfold Clean at hclean ⊢
  rw [keptElems_join p showName file hp hs0 hs1 hs2 hs3 hf0 hf1 hf2 hf3]
  have hr : isRooted (joinSlash [p, showName ++ ['/'], file]) = isRooted p := by
    have : joinSlash [p, showName ++ ['/'], file] = p ++ '/' :: (showName ++ '/' :: '/' :: file) := by
      simp [joinSlash]
    rw [this, isRooted_append p _ hp]
  rw [hr]
  have hk : keptElems p ≠ [] := by
    intro hk
    rw [hk] at hclean
    unfold renderPath at hclean
    by_cases hrt : isRooted p = true
    · rw [if_pos hrt] at hclean
      exact hroot hclean.symm
    · rw [if_neg hrt, if_pos rfl] at hclean
      exact hdot hclean.symm
  have hsnoc : joinSlash (keptElems p ++ [showName, file]) =
      joinSlash (keptElems p) ++ '/' :: showName ++ '/' :: file := by
    have e : keptElems p ++ [showName, file] = (keptElems p ++ [showName]) ++ [file] := by simp
    rw [e, joinSlash_snoc _ _ (by simp), joinSlash_snoc _ _ hk, List.append_assoc]
  unfold renderPath at hclean ⊢
  by_cases hrt : isRooted p = true
  · rw [if_pos hrt] at hclean ⊢
    rw [hsnoc]
    conv_rhs => rw [← hclean]
    rfl
  · rw [if_neg hrt, if_neg hk] at hclean
    rw [if_neg hrt, if_neg (by simp), hsnoc, hclean]

theorem isDigit_digitChar (d : Nat) (h : d < 10) : isDigit (Nat.digitChar d) = true := by
  interval_cases d <;> decide

theorem toDigitsCore_digits (f n : Nat) (ds : Str) :
    ∀ c ∈ Nat.toDigitsCore 10 f n ds, c ∈ ds ∨ isDigit c = true := by
  induction f generalizing n ds with
  | zero => intro c hc; exact Or.inl hc
  | succ f ih =>
    intro c hc
    unfold Nat.toDigitsCore at hc
    dsimp only at hc
    split at hc
    · rcases List.mem_cons.mp hc with h | h
      · right; rw [h]; exact isDigit_digitChar _ (Nat.mod_lt _ (by decide))
      · exact Or.inl h
    · rcases ih _ _ c hc with h | h
      · rcases List.mem_cons.mp h with h | h
        · right; rw [h]; exact isDigit_digitChar _ (Nat.mod_lt _ (by decide))
        · exact Or.inl h
      · exact Or.inr h

theorem toDigits_digits (n : Nat) : ∀ c ∈ Nat.toDigits 10 n, isDigit c = true := by
  intro c hc
  rcases toDigitsCore_digits (n + 1) n [] c hc with h | h
  · exact absurd h (List.not_mem_nil c)
  · exact h

theorem toDigitsCore_length_pos (f n : Nat) : 1 ≤ (Nat.toDigitsCore 10 (f + 1) n []).length := by
  unfold Nat.toDigitsCore
  dsimp only
  split
  · simp
  · rw [Nat.toDigitsCore_lens_eq]
    omega

theorem toDigits_length_ge_two (n : Nat) (h : 10 ≤ n) : 2 ≤ (Nat.toDigits 10 n).length := by
  unfold Nat.toDigits Nat.toDigitsCore
  dsimp only
  have hn : n / 10 ≠ 0 := by omega
  rw [if_neg hn, Nat.toDigitsCore_lens_eq]
  obtain ⟨m, rfl⟩ : ∃ m, n = m + 1 := ⟨n - 1, by omega⟩
  have := toDigitsCore_length_pos m ((m + 1) / 10)
  omega

/-- The verb `%02d` pads a natural number to at least two digits. -/
theorem fmtInt_two_eq_pad2 (n : Nat) : fmtInt 2 (n : Int) = pad2 n := by
  unfold fmtInt pad2
  have hneg : ¬ ((n : Int) < 0) := by omega
  simp only [Int.natAbs_ofNat, if_neg hneg]
  by_cases h : n < 10
  · rw [if_pos h]
    have : Nat.toDigits 10 n = [Nat.digitChar n] := by
      unfold Nat.toDigits Nat.toDigitsCore
      dsimp only
      rw [if_pos (by omega), Nat.mod_eq_of_lt h]
    rw [this]
    rfl
  · rw [if_neg h]
    have := toDigits_length_ge_two n (by omega)
    have h0 : 2 - (Nat.toDigits 10 n).length = 0 := by omega
    rw [h0]
    rfl

theorem pad2_digits (n : Nat) : ∀ c ∈ pad2 n, isDigit c = true := by
  intro c hc
  unfold pad2 at hc
  split at hc
  · rename_i h
    rcases List.mem_cons.mp hc with e | e
    · rw [e]; decide
    · rw [List.mem_singleton.mp e]
      exact isDigit_digitChar n h
  · exact toDigits_digits n c hc

theorem slash_not_mem_pad2 (n : Nat) : '/' ∉ pad2 n := by
  intro h
  have := pad2_digits n _ h
  exact absurd this (by decide)

/-- The file name of the destination, with the numbers padded as the
specification words it. -/
theorem destPath_eq_Join (mediaPath showName title : Str) (season episode : Nat) :
    destPath mediaPath showName title season episode =
      Join [mediaPath, showName ++ ['/'],
        showName ++ " - ".toList ++ title ++ " - S".toList ++ pad2 season ++
          "E".toList ++ pad2 episode ++ ".mp4".toList] := by
  unfold destPath
  rw [fmtInt_two_eq_pad2, fmtInt_two_eq_pad2]
  rfl

/-- C4, as the code has it. For a non-empty media root the destination is
`filepath.Clean` of `<mediaRoot>/<show>//<show> - <title> - S<season:02>E<episode:02>.mp4`,
a function of these fields only; and it is exactly
`<mediaRoot>/<show>/<show> - <title> - S<season:02>E<episode:02>.mp4` when the
media root is a clean path other than `/` and `.`, the show name is not empty,
not `.`, not `..` and has no `/`, and the title has no `/`. -/
theorem destPath_layout (mediaPath showName title : Str) (season episode : Nat)
    (hne : mediaPath ≠ []) :
    destPath mediaPath showName title season episode =
      Clean (mediaPath ++ "/".toList ++ showName ++ "//".toList ++ showName ++ " - ".toList ++
        title ++ " - S".toList ++ pad2 season ++ "E".toList ++ pad2 episode ++ ".mp4".toList) ∧
    (Clean mediaPath = mediaPath → mediaPath ≠ "/".toList → mediaPath ≠ ".".toList →
      showName ≠ [] → showName ≠ ".".toList → showName ≠ "..".toList → '/' ∉ showName →
      '/' ∉ title →
      destPath mediaPath showName title season episode =
        specPath mediaPath showName title season episode) := by
  constructor
  · rw [destPath_eq_Join]
    unfold Join
    rw [if_neg hne]
    congr 1
    simp [joinSlash]
  · intro hclean hroot hdot hs0 hs1 hs2 hs3 ht
    rw [destPath_eq_Join]
    have hlen : 3 ≤ (showName ++ " - ".toList ++ title ++ " - S".toList ++ pad2 season ++
          "E".toList ++ pad2 episode ++ ".mp4".toList).length := by
      simp only [List.length_append]
      have : ".mp4".toList.length = 4 := rfl
      omega
    have hf3 : '/' ∉ showName ++ " - ".toList ++ title ++ " - S".toList ++ pad2 season ++
          "E".toList ++ pad2 episode ++ ".mp4".toList := by
      simp only [List.mem_append, not_or]
      refine ⟨⟨⟨⟨⟨⟨⟨hs3, by decide⟩, ht⟩, by decide⟩, slash_not_mem_pad2 season⟩, by decide⟩,
        slash_not_mem_pad2 episode⟩, by decide⟩
    rw [Join_clean_root mediaPath showName _ hclean hroot hdot hs0 hs1 hs2 hs3
      (by intro h; rw [h] at hlen; simp at hlen)
      (by intro h; rw [h] at hlen; simp at hlen)
      (by intro h; rw [h] at hlen; simp at hlen) hf3]
    unfold specPath
    have e : "/".toList = ['/'] := rfl
    rw [e]
    simp [List.append_assoc]

/-- C4, on the specification's example: root `/root`, show `ShowX`, title
`Pilot`, season 1, episode 3. -/
theorem destPath_layout_witness :
    destPath "/root".toList "ShowX".toList "Pilot".toList 1 3 =
      "/root/ShowX/ShowX - Pilot - S01E03.mp4".toList :=
  ((destPath_layout "/root".toList "ShowX".toList "Pilot".toList 1 3 (by decide)).2
    (by decide) (by decide) (by decide) (by decide) (by decide) (by decide) (by decide)
    (by decide)).trans (by decide)

/-- C4 as stated fails: for the show name `..` under the root `/root` the code
computes `/.. - Pilot - S01E03.mp4`, not `/root/../.. - Pilot - S01E03.mp4`; and
for the root `/root/` it computes `/root/ShowX/...`, not `/root//ShowX/...`. -/
theorem destPath_not_always_specPath :
    destPath "/root".toList "..".toList "Pilot".toList 1 3 = "/.. - Pilot - S01E03.mp4".toList ∧
    destPath "/root".toList "..".toList "Pilot".toList 1 3 ≠
      specPath "/root".toList "..".toList "Pilot".toList 1 3 ∧
    destPath "/root/".toList "ShowX".toList "Pilot".toList 1 3 ≠
      specPath "/root/".toList "ShowX".toList "Pilot".toList 1 3 := by
  refine ⟨by decide, by decide, by decide⟩

/-! ## Trimming and matching -/

theorem matchAt_nil (lit : Str) : matchAt lit [] = none := by
  unfold matchAt
  split
  · simp
  · rfl

/-- What a successful anchored match looks like: the literal, then a digit. -/
theorem matchAt_some_shape (lit s ds : Str) (h : matchAt lit s = some ds) :
    ∃ d b, isDigit d = true ∧ s = lit ++ d :: b := by
  unfold matchAt at h
  split at h
  · rename_i hp
    dsimp only at h
    split at h
    · exact Option.noConfusion h
    · rename_i hne
      obtain ⟨t, ht⟩ := List.isPrefixOf_iff_prefix.mp hp
      subst ht
      rw [List.drop_left] at hne
      cases t with
      | nil => exact absurd rfl hne
      | cons d b =>
        refine ⟨d, b, ?_, rfl⟩
        by_contra hd
        apply hne
        rw [List.takeWhile_cons, if_neg hd]
  · exact Option.noConfusion h

/-- The anchored match on the literal followed by digits that end there. -/
theorem matchAt_lit_digits (lit ds rest : Str) (hne : ds ≠ [])
    (hds : ∀ c ∈ ds, isDigit c = true) (hrest : ∀ c, rest.head? = some c → isDigit c = false) :
    matchAt lit (lit ++ ds ++ rest) = some ds := by
  unfold matchAt
  have hp : lit.isPrefixOf (lit ++ ds ++ rest) = true := by
    rw [List.isPrefixOf_iff_prefix, List.append_assoc]
    exact List.prefix_append _ _
  rw [if_pos hp]
  dsimp only
  have htw : List.takeWhile isDigit (List.drop lit.length (lit ++ ds ++ rest)) = ds := by
    rw [List.append_assoc, List.drop_left]
    clear hne hp
    induction ds with
    | nil =>
      cases rest with
      | nil => rfl
      | cons c cs =>
        have := hrest c rfl
        rw [List.nil_append, List.takeWhile_cons, this]
        rfl
    | cons d ds ih =>
      rw [List.cons_append, List.takeWhile_cons, hds d (List.mem_cons_self _ _)]
      simp only [if_true]
      rw [ih (fun c hc => hds c (List.mem_cons_of_mem _ hc))]
  rw [htw, if_neg hne]

theorem FindStringSubmatch_dropWhile (lit : Str) (l0 : Char) (lt : Str) (hlit : lit = l0 :: lt)
    (hl0 : isSpace l0 = false) (s : Str) :
    FindStringSubmatch lit (s.dropWhile isSpace) = FindStringSubmatch lit s := by
  induction s with
  | nil => rfl
  | cons c cs ih =>
    by_cases hc : isSpace c = true
    · rw [List.dropWhile_cons, if_pos hc, ih]
      have hm : matchAt lit (c :: cs) = none := by
        cases hm : matchAt lit (c :: cs) with
        | none => rfl
        | some ds =>
          obtain ⟨d, b, _, hs⟩ := matchAt_some_shape lit _ ds hm
          rw [hlit, List.cons_append] at hs
          injection hs with h1 _
          rw [h1, hl0] at hc
          exact Bool.noConfusion hc
      conv_rhs => rw [FindStringSubmatch, hm]
    · rw [List.dropWhile_cons, if_neg hc]

theorem isDigit_false_of_isSpace (c : Char) (h : isSpace c = true) : isDigit c = false := by
  unfold isSpace at h
  unfold isDigit
  simp only [Bool.or_eq_true, Bool.and_eq_true, decide_eq_true_eq] at h
  rw [Bool.and_eq_false_iff]
  simp only [decide_eq_false_iff_not]
  omega

theorem trimRight_cons (c : Char) (cs : Str) :
    trimRight (c :: cs) =
      if trimRight cs = [] ∧ isSpace c = true then [] else c :: trimRight cs := by
  rw [trimRight]
  cases h : trimRight cs with
  | nil =>
    by_cases hc : isSpace c = true
    · simp [hc]
    · simp [hc]
  | cons r rs => simp

/-- Trimming on the right removes a run of white space. -/
theorem trimRight_decomp (s : Str) :
    ∃ ws, s = trimRight s ++ ws ∧ ∀ c ∈ ws, isSpace c = true := by
  induction s with
  | nil => exact ⟨[], rfl, fun c hc => absurd hc (List.not_mem_nil c)⟩
  | cons c cs ih =>
    obtain ⟨ws, hws, hsp⟩ := ih
    rw [trimRight_cons]
    by_cases h : trimRight cs = [] ∧ isSpace c = true
    · rw [if_pos h]
      refine ⟨c :: cs, rfl, ?_⟩
      intro x hx
      rcases List.mem_cons.mp hx with hx | hx
      · rw [hx]; exact h.2
      · rw [hws, h.1] at hx
        exact hsp x hx
    · rw [if_neg h]
      exact ⟨ws, by rw [List.cons_append, ← hws], hsp⟩

theorem takeWhile_isDigit_append_spaces (u ws : Str) (hws : ∀ c ∈ ws, isSpace c = true) :
    List.takeWhile isDigit (u ++ ws) = List.takeWhile isDigit u := by
  induction u with
  | nil =>
    cases ws with
    | nil => rfl
    | cons w ws =>
      rw [List.nil_append, List.takeWhile_cons,
        isDigit_false_of_isSpace w (hws w (List.mem_cons_self _ _))]
      rfl
  | cons x xs ih =>
    rw [List.cons_append, List.takeWhile_cons, List.takeWhile_cons, ih]

/-- White space after the text does not change an anchored match. -/
theorem matchAt_append_spaces (lit t ws : Str) (hws : ∀ c ∈ ws, isSpace c = true) :
    matchAt lit (t ++ ws) = matchAt lit t := by
  unfold matchAt
  by_cases hp : lit.isPrefixOf t = true
  · have hp2 : lit.isPrefixOf (t ++ ws) = true := by
      rw [List.isPrefixOf_iff_prefix] at hp ⊢
      exact hp.trans (List.prefix_append _ _)
    rw [if_pos hp, if_pos hp2]
    dsimp only
    obtain ⟨u, hu⟩ := List.isPrefixOf_iff_prefix.mp hp
    subst hu
    rw [List.append_assoc, List.drop_left, List.drop_left,
      takeWhile_isDigit_append_spaces u ws hws]
  · rw [if_neg hp]
    by_cases hp2 : lit.isPrefixOf (t ++ ws) = true
    · rw [if_pos hp2]
      dsimp only
      have hlen : t.length < lit.length := by
        by_contra hcon
        apply hp
        rw [List.isPrefixOf_iff_prefix] at hp2 ⊢
        exact List.prefix_of_prefix_length_le hp2 (List.prefix_append _ _) (by omega)
      have htw : List.takeWhile isDigit (List.drop lit.length (t ++ ws)) = [] := by
        rw [List.drop_append_eq_append_drop, List.drop_eq_nil_of_le (by omega), List.nil_append]
        cases hd : List.drop (lit.length - t.length) ws with
        | nil => rfl
        | cons x xs =>
          have hx : x ∈ ws := List.mem_of_mem_drop (by rw [hd]; exact List.mem_cons_self _ _)
          rw [List.takeWhile_cons, isDigit_false_of_isSpace x (hws x hx)]
          rfl
      rw [htw, if_pos rfl]
    · rw [if_neg hp2]

theorem matchAt_trimRight (lit s : Str) : matchAt lit (trimRight s) = matchAt lit s := by
  obtain ⟨ws, hws, hsp⟩ := trimRight_decomp s
  conv_rhs => rw [hws]
  rw [matchAt_append_spaces lit _ ws hsp]

theorem FindStringSubmatch_trimRight (lit s : Str) :
    FindStringSubmatch lit (trimRight s) = FindStringSubmatch lit s := by
  induction s with
  | nil => rfl
  | cons c cs ih =>
    have hm := matchAt_trimRight lit (c :: cs)
    rw [trimRight_cons] at hm ⊢
    by_cases h : trimRight cs = [] ∧ isSpace c = true
    · rw [if_pos h] at hm ⊢
      rw [matchAt_nil] at hm
      conv_rhs => rw [FindStringSubmatch, ← hm]
      dsimp only
      rw [← ih, h.1]
    · rw [if_neg h] at hm ⊢
      rw [FindStringSubmatch, hm]
      conv_rhs => rw [FindStringSubmatch]
      cases matchAt lit (c :: cs) with
      | none => exact ih
      | some ds => rfl

/-- The patterns see the same matches in the trimmed label as in the label. -/
theorem FindStringSubmatch_TrimSpace (lit : Str) (l0 : Char) (lt : Str) (hlit : lit = l0 :: lt)
    (hl0 : isSpace l0 = false) (s : Str) :
    FindStringSubmatch lit (TrimSpace s) = FindStringSubmatch lit s := by
  unfold TrimSpace
  rw [FindStringSubmatch_trimRight, FindStringSubmatch_dropWhile lit l0 lt hlit hl0]

/-- The leftmost match: the literal followed by the digits `ds`, which end
there, with no occurrence of the literal followed by a digit starting further
left. -/
theorem FindStringSubmatch_first (lit pre ds rest : Str) (hne : ds ≠ [])
    (hds : ∀ c ∈ ds, isDigit c = true) (hrest : ∀ c, rest.head? = some c → isDigit c = false)
    (hfirst : ∀ a b d, isDigit d = true → pre ++ lit ++ ds ++ rest = a ++ lit ++ d :: b →
      pre.length ≤ a.length) :
    FindStringSubmatch lit (pre ++ lit ++ ds ++ rest) = [lit ++ ds, ds] := by
  induction pre with
  | nil =>
    rw [List.nil_append]
    have hm := matchAt_lit_digits lit ds rest hne hds hrest
    cases hs : lit ++ ds ++ rest with
    | nil =>
      rw [hs, matchAt_nil] at hm
      exact Option.noConfusion hm
    | cons c cs =>
      rw [hs] at hm
      rw [FindStringSubmatch, hm]
  | cons c pre ih =>
    have hm : matchAt lit (c :: pre ++ lit ++ ds ++ rest) = none := by
      cases hm : matchAt lit (c :: pre ++ lit ++ ds ++ rest) with
      | none => rfl
      | some ds2 =>
        obtain ⟨d, b, hd, hs⟩ := matchAt_some_shape lit _ ds2 hm
        have := hfirst [] b d hd (by rw [hs]; rfl)
        simp at this
    simp only [List.cons_append] at hm ⊢
    rw [FindStringSubmatch, hm]
    dsimp only
    apply ih
    intro a b d hd hs
    have := hfirst (c :: a) b d hd (by simp only [List.cons_append]; rw [hs])
    simp only [List.length_cons] at this
    omega

/-- Without an occurrence of the literal followed by a digit nothing matches. -/
theorem FindStringSubmatch_missing (lit s : Str)
    (hmiss : ¬ ∃ a d b, isDigit d = true ∧ s = a ++ lit ++ d :: b) :
    FindStringSubmatch lit s = [] := by
  induction s with
  | nil => rfl
  | cons c cs ih =>
    have hm : matchAt lit (c :: cs) = none := by
      cases hm : matchAt lit (c :: cs) with
      | none => rfl
      | some ds2 =>
        obtain ⟨d, b, hd, hs⟩ := matchAt_some_shape lit _ ds2 hm
        exact absurd ⟨[], d, b, hd, by rw [hs]; rfl⟩ hmiss
    rw [FindStringSubmatch, hm]
    dsimp only
    apply ih
    rintro ⟨a, d, b, hd, hs⟩
    exact hmiss ⟨c :: a, d, b, hd, by rw [hs]; rfl⟩

/-- `strconv.Atoi` on a non-empty string of digits within the range of `int`. -/
theorem Atoi_digits (ds : Str) (hne : ds ≠ []) (hds : ∀ c ∈ ds, isDigit c = true)
    (hrange : decVal ds < 2 ^ 63) : Atoi ds = ((decVal ds : Int), none) := by
  cases ds with
  | nil => exact absurd rfl hne
  | cons d t =>
    have hd := hds d (List.mem_cons_self _ _)
    have hminus : d ≠ '-' := by
      intro h; rw [h] at hd; exact absurd hd (by decide)
    have hplus : d ≠ '+' := by
      intro h; rw [h] at hd; exact absurd hd (by decide)
    have hall : (d :: t).all isDigit = true := by
      rw [List.all_eq_true]
      exact hds
    unfold Atoi
    simp only [hminus, hplus, or_self, if_false, decide_False, hall, List.cons_ne_nil,
      Bool.true_eq_false, Bool.false_eq_true, if_pos hrange]

/-- A bounded check for "leftmost": no anchored match at the first `n`
positions means every occurrence of the literal followed by a digit starts at
position `n` or later. -/
theorem leftmost_of_no_match (lit label : Str) (n : Nat)
    (h : ∀ i, i < n → matchAt lit (label.drop i) = none) :
    ∀ a b d, isDigit d = true → label = a ++ lit ++ d :: b → n ≤ a.length := by
  intro a b d hd hs
  by_contra hlt
  have hm := h a.length (by omega)
  rw [hs, List.append_assoc, List.drop_left] at hm
  unfold matchAt at hm
  have hp : lit.isPrefixOf (lit ++ d :: b) = true := by
    rw [List.isPrefixOf_iff_prefix]
    exact List.prefix_append _ _
  rw [if_pos hp] at hm
  dsimp only at hm
  rw [List.drop_left, List.takeWhile_cons, hd] at hm
  simp at hm

/-! ## `extractEpisodeNumbering` on labels with both tokens -/

/-- The result of `extractEpisodeNumbering` once both patterns match digit
strings within the range of `int`. -/
theorem extractEpisodeNumbering_of_matches (D : Decoders) (contents label S E : Str)
    (hlabel : D.numberingLabel contents = .ok label)
    (hses : FindStringSubmatch sesRegex label = [sesRegex ++ S, S])
    (hepi : FindStringSubmatch epiRegex label = [epiRegex ++ E, E])
    (hS : Atoi S = ((decVal S : Int), none)) (hE : Atoi E = ((decVal E : Int), none)) :
    extractEpisodeNumbering D contents = ((decVal S : Int), (decVal E : Int), none) := by
  have hs2 : FindStringSubmatch sesRegex (TrimSpace label) = [sesRegex ++ S, S] := by
    rw [FindStringSubmatch_TrimSpace sesRegex 'S' "eizoen ".toList rfl (by decide), hses]
  have he2 : FindStringSubmatch epiRegex (TrimSpace label) = [epiRegex ++ E, E] := by
    rw [FindStringSubmatch_TrimSpace epiRegex 'A' "flevering ".toList rfl (by decide), hepi]
  have hne : TrimSpace label ≠ [] := by
    intro h
    rw [h] at hs2
    exact List.noConfusion hs2
  unfold extractEpisodeNumbering
  rw [hlabel]
  simp only [hne, if_false, hs2, he2, List.length_cons, List.length_nil, List.getD_cons_succ,
    List.getD_cons_zero, hS, hE, ne_eq, not_true_eq_false, zero_add, Nat.reduceAdd]

/-- C2, as the code has it. Let the label read by `extractEpisodeNumbering`
contain `Seizoen ` followed by the numeral `S` and `Aflevering ` followed by the
numeral `E`, in either order and with any surrounding text, where each numeral
is a non-empty digit string below 2^63 that is not followed by a further digit
and each token is the leftmost occurrence of its literal followed by a digit.
Then the call succeeds with season `S` and episode `E`.  And for a label without
an occurrence of `Seizoen ` followed by a digit, or without one of `Aflevering `
followed by a digit, the call fails (with both numbers -1). -/
theorem extractEpisodeNumbering_tokens (D : Decoders) (contents label : Str)
    (hlabel : D.numberingLabel contents = .ok label) :
    (∀ preS S postS preE E postE : Str,
      label = preS ++ sesRegex ++ S ++ postS →
      S ≠ [] → (∀ c ∈ S, isDigit c = true) →
      (∀ c, postS.head? = some c → isDigit c = false) →
      (∀ a b d, isDigit d = true → label = a ++ sesRegex ++ d :: b → preS.length ≤ a.length) →
      decVal S < 2 ^ 63 →
      label = preE ++ epiRegex ++ E ++ postE →
      E ≠ [] → (∀ c ∈ E, isDigit c = true) →
      (∀ c, postE.head? = some c → isDigit c = false) →
      (∀ a b d, isDigit d = true → label = a ++ epiRegex ++ d :: b → preE.length ≤ a.length) →
      decVal E < 2 ^ 63 →
      extractEpisodeNumbering D contents = ((decVal S : Int), (decVal E : Int), none)) ∧
    ((¬ ∃ a d b, isDigit d = true ∧ label = a ++ sesRegex ++ d :: b) ∨
      (¬ ∃ a d b, isDigit d = true ∧ label = a ++ epiRegex ++ d :: b) →
      (extractEpisodeNumbering D contents).2.2 ≠ none ∧
      (extractEpisodeNumbering D contents).1 = -1 ∧
      (extractEpisodeNumbering D contents).2.1 = -1) := by
  constructor
  · intro preS S postS preE E postE hS hS0 hSd hSe hSf hSr hE hE0 hEd hEe hEf hEr
    apply extractEpisodeNumbering_of_matches D contents label S E hlabel
    · conv_lhs => rw [hS]
      exact FindStringSubmatch_first sesRegex preS S postS hS0 hSd hSe
        (fun a b d hd h => hSf a b d hd (hS.trans h))
    · conv_lhs => rw [hE]
      exact FindStringSubmatch_first epiRegex preE E postE hE0 hEd hEe
        (fun a b d hd h => hEf a b d hd (hE.trans h))
    · exact Atoi_digits S hS0 hSd hSr
    · exact Atoi_digits E hE0 hEd hEr
  · intro hmiss
    have herr : (extractEpisodeNumbering D contents).2.2 ≠ none := by
      have hs2 := FindStringSubmatch_TrimSpace sesRegex 'S' "eizoen ".toList rfl (by decide) label
      have he2 := FindStringSubmatch_TrimSpace epiRegex 'A' "flevering ".toList rfl (by decide)
        label
      unfold extractEpisodeNumbering
      rw [hlabel]
      dsimp only
      split
      · simp
      · split
        · simp
        · split
          · simp
          · split
            · simp
            · rename_i hlenE _ _ _ hlenS
              exfalso
              rcases hmiss with h | h
              · rw [hs2, FindStringSubmatch_missing sesRegex label h] at hlenS
                simp at hlenS
              · rw [he2, FindStringSubmatch_missing epiRegex label h] at hlenE
                simp at hlenE
    exact ⟨herr, extractEpisodeNumbering_neg_one_of_error D contents herr⟩

/-- C2, on the label `Seizoen 1, Aflevering 3`. -/
theorem extractEpisodeNumbering_tokens_witness :
    (fixedDecoders [] "Seizoen 1, Aflevering 3".toList []).numberingLabel [] =
      .ok "Seizoen 1, Aflevering 3".toList ∧
    extractEpisodeNumbering (fixedDecoders [] "Seizoen 1, Aflevering 3".toList []) [] =
      (1, 3, none) :=
  ⟨rfl,
   ((extractEpisodeNumbering_tokens (fixedDecoders [] "Seizoen 1, Aflevering 3".toList []) []
      "Seizoen 1, Aflevering 3".toList rfl).1
      [] "1".toList ", Aflevering 3".toList
      "Seizoen 1, ".toList "3".toList []
      (by decide) (by decide) (by decide) (by decide)
      (fun a _ _ _ _ => Nat.zero_le a.length)
      (by decide)
      (by decide) (by decide) (by decide) (by decide)
      (leftmost_of_no_match epiRegex "Seizoen 1, Aflevering 3".toList 11 (by decide))
      (by decide)).trans (by decide)⟩

/-- C2 as stated fails: the label `Seizoen 1 Aflevering 99999999999999999999`
contains both tokens, yet the call fails, because the episode numeral is outside
the range of `int`; and the label `Seizoen 1 Seizoen 2 Aflevering 3` contains
`Seizoen 2` and `Aflevering 3`, yet the season returned is 1, the leftmost
match. -/
theorem extractEpisodeNumbering_tokens_fail :
    extractEpisodeNumbering
        (fixedDecoders [] "Seizoen 1 Aflevering 99999999999999999999".toList []) [] =
      (-1, -1, some "invalid episode number: 99999999999999999999".toList) ∧
    extractEpisodeNumbering (fixedDecoders [] "Seizoen 1 Seizoen 2 Aflevering 3".toList []) [] =
      (1, 3, none) := by
  refine ⟨by decide, by decide⟩

end Nicky
